import Mathlib

/-!
Verification development for the media job orchestration and caching layer of a
desktop video clip manager (an Electron main process driving an ffmpeg-like
subprocess engine, plus a small SQLite-backed edit store).

Shallow embedding conventions:
- The filesystem is modelled as a deterministic map from paths to stat records
  (or to byte lists where file contents matter).  `statSync` succeeds exactly
  when the map is defined at a path, and throws (modelled as the `none` branch
  of a `match`) exactly when it is not.
- Cryptographic digests (sha1 / sha256 hex) and JS number stringification are
  abstracted as function parameters: every claim below is independent of the
  concrete digest, and the source treats them as opaque.
- Promise-returning handlers are embedded as pure functions from an explicit
  environment and state to a result plus the updated state; a settled promise
  value is `Except`/`Option`-shaped where the source can reject or return null.
- Event-driven callback code (the per-track audio extraction handlers, the file
  watcher) is embedded as a step function over an explicit state, folded over
  the list of events in the order they are delivered by the event loop.
-/

namespace VCM

/-- Bytes pushed into a hash object for a JS string: the list of code points of
its characters. -/
def strBytes (s : String) : List Nat := s.data.map Char.toNat

/-- Stat record as read by `fs.statSync`: modification time in milliseconds
(a JS number, modelled as a rational) and size in bytes. -/
structure Stat where
  mtimeMs : Rat
  size : Nat
deriving DecidableEq

/-! ## Content identity (src/main/database.ts) -/

/-- CHUNK_SIZE from `calculatePartialHash`: 64 KiB. -/
def CHUNK_SIZE : Nat := 64 * 1024

/-- Payload of the sha256 digest in `calculatePartialHash`: the first-64KiB
chunk, then the bytes of `String(fileSize)`, then the bytes of
`String(duration || 0)`.  `numStr` abstracts JS number stringification;
integer file sizes stringify as decimal digits, matching `toString`. -/
def hashPayload (numStr : Rat → String) (chunk : List Nat) (fileSize : Nat)
    (duration : Option Rat) : List Nat :=
  chunk ++ strBytes (toString fileSize) ++ strBytes (numStr (duration.getD 0))

/-- `calculatePartialHash(filepath, fileSize, duration)` from database.ts.
`files` maps a path to the byte list of its content (`none` when `fs.open`
fails); `H` abstracts the sha256 hex digest of the accumulated payload.
`fs.read` returns at most CHUNK_SIZE bytes from offset 0, and
`buffer.slice(0, bytesRead)` is exactly the first `min CHUNK_SIZE length`
bytes of the file, i.e. `content.take CHUNK_SIZE`.  Rejects (IOError) iff the
file cannot be opened. -/
def calculatePartialHash (H : List Nat → String) (numStr : Rat → String)
    (files : String → Option (List Nat)) (filepath : String)
    (fileSize : Nat) (duration : Option Rat) : Except String String :=
  match files filepath with
  | none => .error "ENOENT"
  | some content =>
      .ok (H (hashPayload numStr (content.take CHUNK_SIZE) fileSize duration))

/-- Duration resolution in `getClipHash`: a provided duration wins (even when
it is null); otherwise ffprobe is consulted, probe failure degrading to null
(and then to 0 inside the digest via `duration || 0`). -/
def resolveDuration (probeDuration : String → Option Rat) (filepath : String)
    (duration : Option (Option Rat)) : Option Rat :=
  match duration with
  | some d => d
  | none => probeDuration filepath

/-- `getClipHash(filepath, duration?)` from database.ts: `statSync` for the
size, duration resolution, then `calculatePartialHash`. -/
def getClipHash (H : List Nat → String) (numStr : Rat → String)
    (files : String → Option (List Nat)) (probeDuration : String → Option Rat)
    (filepath : String) (duration : Option (Option Rat)) : Except String String :=
  match files filepath with
  | none => .error "ENOENT"
  | some content =>
      calculatePartialHash H numStr files filepath content.length
        (resolveDuration probeDuration filepath duration)

/-! ## Cache path computation (main process) -/

/-- External collaborators from Node's `os` and `path` modules, abstracted as
an environment: the temp directory, two-segment `path.join`,
`path.basename(p, ext)` and `path.extname(p)`. -/
structure NodeEnv where
  tmpdir : String
  join2 : String → String → String
  basename2 : String → String → String
  extname : String → String

/-- Abstracted sha1 hex digest over the list of `update()` chunks. -/
abbrev Digest := List (List Nat) → String

/-- `computeMetaCachePath(videoPath)`: cache path for probe metadata keyed by
path + mtimeMs + size, truncated sha1.  The `catch` branch keys by the path
string alone when `statSync` throws (source file missing).  The function
never fails; the `Except` return type only records that no error escapes,
so both branches are `.ok`. -/
def computeMetaCachePath (env : NodeEnv) (sha1 : Digest) (numStr : Rat → String)
    (fsStat : String → Option Stat) (videoPath : String) : Except String String :=
  let base := env.basename2 videoPath (env.extname videoPath)
  match fsStat videoPath with
  | some st =>
      let hash := (sha1 [strBytes videoPath, strBytes (numStr st.mtimeMs),
        strBytes (toString st.size)]).take 16
      .ok (env.join2 (env.join2 env.tmpdir "vcm-meta") (base ++ "-" ++ hash ++ ".json"))
  | none =>
      let hash := (sha1 [strBytes videoPath]).take 16
      .ok (env.join2 (env.join2 env.tmpdir "vcm-meta") (base ++ "-" ++ hash ++ ".json"))

/-- The extra `trim-${trimStart}-${trimEnd}` hash chunk of
`computeCachedThumbPath`, present exactly when both bounds are defined. -/
def trimChunk (numStr : Rat → String) (trimStart trimEnd : Option Rat) :
    List (List Nat) :=
  match trimStart, trimEnd with
  | some ts, some te => [strBytes ("trim-" ++ numStr ts ++ "-" ++ numStr te)]
  | _, _ => []

/-- `getThumbCacheDir()`: `path.join(os.tmpdir(), 'vcm-thumbs')` (the mkdir
side effect is irrelevant to path computation). -/
def getThumbCacheDir (env : NodeEnv) : String := env.join2 env.tmpdir "vcm-thumbs"

/-- `computeCachedThumbPath(videoPath, trimStart?, trimEnd?)`: thumbnail cache
path keyed by path + mtimeMs + size plus the trim chunk; the `catch` branch
keys by the path string (plus the trim chunk) alone.  Never fails. -/
def computeCachedThumbPath (env : NodeEnv) (sha1 : Digest) (numStr : Rat → String)
    (fsStat : String → Option Stat) (videoPath : String)
    (trimStart trimEnd : Option Rat) : Except String String :=
  let base := env.basename2 videoPath (env.extname videoPath)
  match fsStat videoPath with
  | some st =>
      let hash := (sha1 ([strBytes videoPath, strBytes (numStr st.mtimeMs),
        strBytes (toString st.size)] ++ trimChunk numStr trimStart trimEnd)).take 16
      .ok (env.join2 (getThumbCacheDir env) (base ++ "-" ++ hash ++ ".jpg"))
  | none =>
      let hash := (sha1 ([strBytes videoPath] ++ trimChunk numStr trimStart trimEnd)).take 16
      .ok (env.join2 (getThumbCacheDir env) (base ++ "-" ++ hash ++ ".jpg"))

/-- `fs.existsSync` over the stat map. -/
def fileExists (fsStat : String → Option Stat) (p : String) : Bool :=
  (fsStat p).isSome

/-- JS falsiness of an optional number, as used by `(!trimStart || !trimEnd)`:
`undefined` and `0` are falsy. -/
def jsFalsy (x : Option Rat) : Bool :=
  match x with
  | none => true
  | some v => decide (v = 0)

/-- Outcome of the cache-check section of the 'get-cached-thumbnail' handler:
a parameterized-key hit, the old un-parameterized fallback, or a miss that
proceeds to thumbnail generation at the parameterized path. -/
inductive ThumbServe
  | hit (p : String)
  | oldHit (p : String)
  | generate (p : String)
deriving DecidableEq

/-- Cache-check section of the 'get-cached-thumbnail' handler: compute the
parameterized path; serve it on a hit; otherwise compute the old
un-parameterized path and serve it when it exists and
`(!trimStart || !trimEnd)`; otherwise fall through to generation. -/
def getCachedThumbnailCheck (env : NodeEnv) (sha1 : Digest) (numStr : Rat → String)
    (fsStat : String → Option Stat) (videoPath : String)
    (trimStart trimEnd : Option Rat) : Except String ThumbServe := do
  let outPath ← computeCachedThumbPath env sha1 numStr fsStat videoPath trimStart trimEnd
  if fileExists fsStat outPath then
    return .hit outPath
  else
    let oldPath ← computeCachedThumbPath env sha1 numStr fsStat videoPath none none
    if fileExists fsStat oldPath && (jsFalsy trimStart || jsFalsy trimEnd) then
      return .oldHit oldPath
    else
      return .generate outPath

/-- An active trim window in the sense of the thumbnail timestamp logic:
both bounds defined, `trimStart >= 0` and `trimEnd > trimStart`. -/
def activeTrim (trimStart trimEnd : Option Rat) : Prop :=
  ∃ a b : Rat, trimStart = some a ∧ trimEnd = some b ∧ 0 ≤ a ∧ a < b

/-! ## Single-flight task maps (thumbTasks / metaTasks / audioExtractTasks) -/

/-- The in-flight computation registry: a map from cache key to the pending
task (promise), identified by the serial number of the external-engine
invocation that backs it, plus the count of invocations launched so far.
Instantiated by `thumbTasks` (keyed by the thumbnail cache path) and
`metaTasks` (keyed by the metadata cache path), whose entries live until
the task settles.  `audioExtractTasks` (keyed by the audio cache
directory) deletes its entry when the task's async body returns, which on
the extraction path precedes settlement; its lifecycle is modelled
separately by `AudioFlightState` / `audioStep`. -/
structure FlightState where
  tasks : String → Option Nat
  launched : Nat

/-- The map consultation of the handlers: reuse the registered task when one
is in flight, else register a fresh task backed by a new engine invocation. -/
def requestTask (s : FlightState) (key : String) : Nat × FlightState :=
  match s.tasks key with
  | some t => (t, s)
  | none =>
      let t := s.launched
      (t, ⟨fun k => if k = key then some t else s.tasks k, s.launched + 1⟩)

/-- How a computation settles: fulfilled, rejected, or rejected because the
backing subprocess was killed (timeout / cancellation). -/
inductive SettleKind
  | success
  | failure
  | canceled
deriving DecidableEq

/-- Settlement-time removal for `thumbTasks` and `metaTasks`: the map entry
for the key is deleted when the task settles, whatever the outcome.  The
settle kind is deliberately not inspected.  For `thumbTasks` this mirrors
`.finally(() => thumbTasks.delete(outPath))`, which runs when the promise
settles; for `metaTasks` the async body awaits its value before
returning, so its `finally` also runs at settlement.  The audio map is
NOT modelled here: its `finally` runs when the body returns the pending
inner extraction promise, before settlement (see `audioStep`). -/
def settleTask (s : FlightState) (key : String) (_how : SettleKind) : FlightState :=
  ⟨fun k => if k = key then none else s.tasks k, s.launched⟩

/-- Lifecycle phase of one 'get-cached-extracted-audio' task: the async body
first awaits ffprobe (`probing`); on the extraction path it then returns a
pending inner promise while the per-track engine invocations run
(`extracting`); a settled task is `done`. -/
inductive AudioTaskPhase
  | probing
  | extracting
  | done
deriving DecidableEq

/-- State of the `audioExtractTasks` map for one cache directory: the tasks
created so far for this key (indexed by creation order), the map entry
(the index of the registered task, if any), and the number of per-track
extraction batches launched against the external engine. -/
structure AudioFlightState where
  tasks : List AudioTaskPhase
  entry : Option Nat
  batches : Nat
deriving DecidableEq

/-- Scheduler events for one key of 'get-cached-extracted-audio': a handler
invocation with `forceRefresh` false (`request`); the async body of task
`i` returning a value or throwing while probing — the no-audio,
cached-files and probe-error paths, where the `finally` deletes the map
entry and the task settles together (`bodySettle`); the body of task `i`
reaching `return new Promise(...)` — the per-track batch is launched and
the `finally` then deletes the map entry while the inner promise is still
pending (`launchTracks`); and the inner promise of task `i` settling when
its tracks finish, which does not touch the map, its `finally` having
already run at launch (`settleTracks`). -/
inductive AudioEv
  | request
  | bodySettle (i : Nat)
  | launchTracks (i : Nat)
  | settleTracks (i : Nat)
deriving DecidableEq

/-- One scheduler step of the audio handler.  A request awaits the registered
task if the map has one, else creates and registers a fresh task (whose
body will probe and then launch); `bodySettle` settles a probing task and
deletes the map entry; `launchTracks` moves a probing task to
`extracting`, counts its engine batch and deletes the map entry;
`settleTracks` settles an extracting task, leaving the map entry
untouched. -/
def audioStep (s : AudioFlightState) : AudioEv → AudioFlightState
  | .request =>
      match s.entry with
      | some _ => s
      | none => ⟨s.tasks ++ [.probing], some s.tasks.length, s.batches⟩
  | .bodySettle i =>
      if s.tasks.get? i = some .probing then
        ⟨s.tasks.set i .done, none, s.batches⟩
      else s
  | .launchTracks i =>
      if s.tasks.get? i = some .probing then
        ⟨s.tasks.set i .extracting, none, s.batches + 1⟩
      else s
  | .settleTracks i =>
      if s.tasks.get? i = some .extracting then
        ⟨s.tasks.set i .done, s.entry, s.batches⟩
      else s

/-- A run of the audio handler scheduler for one key, from the empty map. -/
def runAudio (evs : List AudioEv) : AudioFlightState :=
  evs.foldl audioStep ⟨[], none, 0⟩

/-! ## Cached metadata handler ('get-cached-metadata') -/

/-- Association-list lookup, modelling `Map.get` / keyed file lookup. -/
def lookupAssoc (m : List (String × String)) (k : String) : Option String :=
  (m.find? (fun e => e.1 == k)).map (fun e => e.2)

/-- Result of one 'get-cached-metadata' invocation: the resolved value
(`none` models resolving with null) and the updated in-memory and on-disk
caches. -/
structure MetaCacheResult where
  result : Option String
  memCache : List (String × String)
  diskCache : List (String × String)
deriving DecidableEq

/-- The 'get-cached-metadata' handler: in-memory cache, then the on-disk JSON
blob at `computeMetaCachePath` (`disk` maps a cache path to its parsed
content; a missing or unparsable file is `none`, the parse error being
caught), then a fresh ffprobe.  On probe success the blob is written and
memoized when the write succeeds (`writeOk`; a write failure is caught and
only logged).  On probe failure the handler resolves with `none` (null).
The single-flight `metaTasks` map is modelled separately by `FlightState`;
this is the body of one task. -/
def getCachedMetadata (env : NodeEnv) (sha1 : Digest) (numStr : Rat → String)
    (fsStat : String → Option Stat)
    (mem : List (String × String)) (disk : List (String × String))
    (probe : String → Except String String) (writeOk : Bool)
    (videoPath : String) : MetaCacheResult :=
  match lookupAssoc mem videoPath with
  | some m0 => ⟨some m0, mem, disk⟩
  | none =>
    match computeMetaCachePath env sha1 numStr fsStat videoPath with
    | .error _ => ⟨none, mem, disk⟩
    | .ok cachePath =>
      match lookupAssoc disk cachePath with
      | some m1 => ⟨some m1, (videoPath, m1) :: mem, disk⟩
      | none =>
        match probe videoPath with
        | .ok m2 =>
            if writeOk then ⟨some m2, (videoPath, m2) :: mem, (cachePath, m2) :: disk⟩
            else ⟨some m2, mem, disk⟩
        | .error _ => ⟨none, mem, disk⟩

/-! ## Two-pass encode: pass-1 log gate and statistics-file cleanup -/

/-- Minimum plausible pass-1 log size checked by `encodeTwoPass` (1 KiB). -/
def MIN_PASSLOG_SIZE : Nat := 1024

/-- What happens between pass 1 completing and pass 2 starting. -/
inductive Pass1Gate
  | canceledEarly
  | failLogMissing
  | failLogTooSmall (size : Nat)
  | proceed
deriving DecidableEq

/-- The gate `encodeTwoPass` runs after pass 1: resolve canceled if the
session's cancel flag is set; reject if `${tempLogFile}-0.log` does not
exist; reject if its size is below `MIN_PASSLOG_SIZE`; otherwise start
pass 2.  `logStat` is the deterministic stat of the log file (`existsSync`
true exactly when `statSync` succeeds, so the source's catch-and-proceed
around `statSync` after a successful `existsSync` is unreachable here). -/
def checkAfterPass1 (canceled : Bool) (logStat : Option Nat) : Pass1Gate :=
  if canceled then .canceledEarly
  else
    match logStat with
    | none => .failLogMissing
    | some sz => if sz < MIN_PASSLOG_SIZE then .failLogTooSmall sz else .proceed

/-- A rejection of the `encodeTwoPass` promise at the pass-1 gate. -/
def isPass1Failure (g : Pass1Gate) : Bool :=
  match g with
  | .failLogMissing => true
  | .failLogTooSmall _ => true
  | _ => false

/-- Presence of the three temporary statistics files of a two-pass encode:
the `-passlogfile` base path (which ffmpeg itself never creates), the
`-0.log` statistics file, and the `-0.log.mbtree` file. -/
structure StatsFiles where
  base : Bool
  log : Bool
  mbtree : Bool
deriving DecidableEq

/-- The exit paths of `encodeTwoPass`. -/
inductive TwoPassExit
  | canceledBetweenPasses
  | logMissingFail
  | logTooSmallFail
  | pass1ErrorCatch
  | pass2Success
  | aacWarningSuccess
  | pass2ErrorOrCancel
deriving DecidableEq

/-- The statistics-file cleanup `encodeTwoPass` performs on each exit path,
transcribed unlink-by-unlink from the handler bodies (an `unlinkSync`
guarded by `existsSync` is modelled as setting the flag to false):
- cancellation between the passes unlinks only `tempLogFile`;
- the log-missing rejection unlinks only `tempLogFile`;
- the log-too-small rejection unlinks all three files;
- the catch around pass 1 (pass-1 error) unlinks only `tempLogFile`;
- pass-2 end, the tolerated AAC-queue-warning path, and the pass-2
  error/cancel handler each unlink all three files. -/
def cleanupAt (e : TwoPassExit) (f : StatsFiles) : StatsFiles :=
  match e with
  | .canceledBetweenPasses => { f with base := false }
  | .logMissingFail => { f with base := false }
  | .logTooSmallFail => ⟨false, false, false⟩
  | .pass1ErrorCatch => { f with base := false }
  | .pass2Success => ⟨false, false, false⟩
  | .aacWarningSuccess => ⟨false, false, false⟩
  | .pass2ErrorOrCancel => ⟨false, false, false⟩

/-- Statistics files on disk at the moment the between-pass gate runs, after a
pass 1 that completed normally: ffmpeg has created `-0.log` (its existence
was asserted by the pass-1 end handler) and `-0.log.mbtree`, while the bare
`-passlogfile` base path was never created. -/
def afterPass1Files : StatsFiles := ⟨false, true, true⟩

/-! ## Audio extraction ('get-cached-extracted-audio' end/error handlers) -/

/-- Terminal behaviour of one per-track ffmpeg demux invocation: either the
end event fires, with the track's output file written at the given size, or
the error event fires with the engine's message (a SIGKILL on timeout also
surfaces through the error event). -/
inductive TrackResult
  | ok (size : Nat)
  | err (msg : String)
deriving DecidableEq

/-- The rejection message of the per-track error handler:
`Audio extraction failed on track ${index}: ${e.message}`. -/
def trackFailMsg (i : Nat) (m : String) : String :=
  "Audio extraction failed on track " ++ toString i ++ ": " ++ m

/-- The rejection message of the post-completion validation. -/
def invalidFilesMsg : String := "Audio extraction produced invalid files"

/-- Output path of track `i`: `path.join(cacheDir, audio_track_${i}.wav)`. -/
def audioTrackPath (cacheDir : String) (i : Nat) : String :=
  cacheDir ++ "/audio_track_" ++ toString i ++ ".wav"

/-- Settlement of the extraction promise. -/
inductive ExtractOutcome
  | resolved (outputs : List String)
  | rejected (msg : String)
deriving DecidableEq

/-- State threaded through the per-track end/error handlers: the `completed`
counter, the `hasError` flag, the files currently present in the cache
directory (index and size), and the first settlement of the promise paired
with a snapshot of the cache directory at the instant it settled. -/
structure ExtractState where
  completed : Nat
  hasError : Bool
  files : List (Nat × Nat)
  settled : Option (ExtractOutcome × List (Nat × Nat))
deriving DecidableEq

/-- `existsSync` + `statSync(...).size` over the cache-directory contents. -/
def lookupFile (files : List (Nat × Nat)) (i : Nat) : Option Nat :=
  (files.find? (fun f => f.1 == i)).map (fun f => f.2)

/-- The `outputs.every(f => existsSync(f) && statSync(f).size > 0)` check run
after the last track completes. -/
def allValid (expected : Nat) (files : List (Nat × Nat)) : Bool :=
  (List.range expected).all (fun j =>
    match lookupFile files j with
    | some s => decide (0 < s)
    | none => false)

/-- One terminal event for track `i`, mirroring the end/error handlers.  An
end event deposits the track's output file (written by ffmpeg before the
event fires) and increments `completed`; when the last track completes with
no prior error the outputs are validated, resolving on success and cleaning
the cache directory and rejecting (with the generic invalid-files message)
otherwise.  The first error event sets `hasError`, cleans the cache
directory and rejects with the message naming the track; later errors are
ignored.  A settlement of an already-settled promise is a no-op, kept via
`Option.orElse`. -/
def extractStep (expected : Nat) (cacheDir : String) (res : Nat → TrackResult)
    (st : ExtractState) (i : Nat) : ExtractState :=
  match res i with
  | .ok sz =>
      let files := (i, sz) :: st.files
      let completed := st.completed + 1
      if completed == expected && !st.hasError then
        if allValid expected files then
          { completed := completed, hasError := st.hasError, files := files,
            settled := st.settled.orElse (fun _ =>
              some (.resolved ((List.range expected).map (audioTrackPath cacheDir)), files)) }
        else
          { completed := completed, hasError := st.hasError, files := [],
            settled := st.settled.orElse (fun _ =>
              some (.rejected invalidFilesMsg, [])) }
      else
        { st with completed := completed, files := files }
  | .err m =>
      if st.hasError then st
      else
        { completed := st.completed, hasError := true, files := [],
          settled := st.settled.orElse (fun _ =>
            some (.rejected (trackFailMsg i m), [])) }

/-- Initial state of one extraction run: the handler cleaned the cache
directory (`cleanupCache(); ensureDir()`) before launching the tracks. -/
def initExtract : ExtractState := ⟨0, false, [], none⟩

/-- One extraction run: the per-track terminal events delivered in the order
`order` (one event per launched track index). -/
def runExtract (expected : Nat) (cacheDir : String) (res : Nat → TrackResult)
    (order : List Nat) : ExtractState :=
  order.foldl (extractStep expected cacheDir res) initExtract

/-- Invariant: every file in the cache directory was written by a track whose
demux ended successfully at that size. -/
def FilesFromTracks (res : Nat → TrackResult) (st : ExtractState) : Prop :=
  ∀ q ∈ st.files, res q.1 = .ok q.2

/-- Invariant: any rejection settled so far left an empty directory snapshot
and carries either the generic invalid-files message or the message naming
a track whose demux failed. -/
def RejectedInv (res : Nat → TrackResult) (st : ExtractState) : Prop :=
  ∀ m snap, st.settled = some (.rejected m, snap) →
    snap = [] ∧
      (m = invalidFilesMsg ∨ ∃ i m0, res i = .err m0 ∧ m = trackFailMsg i m0)

/-- Invariant: any resolution settled so far returned the full expected output
list with a directory snapshot that passed validation and was written by
successful tracks. -/
def ResolvedInv (expected : Nat) (cacheDir : String) (res : Nat → TrackResult)
    (st : ExtractState) : Prop :=
  ∀ out snap, st.settled = some (.resolved out, snap) →
    out = (List.range expected).map (audioTrackPath cacheDir) ∧
    allValid expected snap = true ∧ ∀ q ∈ snap, res q.1 = .ok q.2

/-! ## Export orchestrator: size-targeted retry loops ('export-video') -/

/-- Terminal result of one encode invocation (`encodeOnce` /
`encodeTwoPass`): cooperative cancellation, or completion with the output
file at the given size (as re-stat'ed by the retry loop). -/
inductive EncOut
  | canceled
  | sized (n : Nat)
deriving DecidableEq

/-- Observable actions of the retry loops, in order: an `encodeOnce`
invocation at a bitrate and rate-control mode, an `encodeTwoPass`
invocation at a bitrate, or the deletion of the oversized output file. -/
inductive ExpEvent
  | encode (v : Nat) (crf : Bool)
  | encode2p (v : Nat)
  | deleteOutput
deriving DecidableEq

/-- What the 'export-video' handler returns for a size-targeted export. -/
inductive ExportOutcome
  | done (p : String)
  | canceled
deriving DecidableEq

/-- Trace and result of a size-targeted export. -/
structure ExpRun where
  events : List ExpEvent
  outcome : ExportOutcome
deriving DecidableEq

/-- `Math.max(100, Math.floor(videoBitrateKbps * (mult / 100)))`: the
geometric bitrate reduction with its 100 kbps floor.  For integer bitrates
the double multiplications by 0.80 / 0.85 floor to exactly
`v * mult / 100` (the exact products are at least 1/20 away from the next
integer, far beyond double rounding error). -/
def nextBitrate (mult v : Nat) : Nat := max 100 (v * mult / 100)

/-- The single-pass retry loop body (`while size > targetBytes && attempts <
maxAttempts`), called with `fuel = maxAttempts - attempts`: bump `attempts`;
on the first retry after a CRF attempt switch to explicit-bitrate mode;
reduce the bitrate by the 0.85 factor with the 100 kbps floor (both
branches of the source apply the same formula); delete the oversized
output; re-encode; a canceled attempt short-circuits the loop. -/
def spRetryAux (enc : Nat → Bool → EncOut) (target : Nat) (outPath : String) :
    Nat → Bool → Nat → Nat → Nat → ExpRun
  | _, _, _, _, 0 => ⟨[], .done outPath⟩
  | v, useCRF, size, attempts, fuel + 1 =>
    if target < size then
      let attempts1 := attempts + 1
      let useCRF1 := if useCRF && attempts1 == 1 then false else useCRF
      let v1 := nextBitrate 85 v
      match enc v1 useCRF1 with
      | .canceled => ⟨[.deleteOutput, .encode v1 useCRF1], .canceled⟩
      | .sized sz =>
          let rest := spRetryAux enc target outPath v1 useCRF1 sz attempts1 fuel
          ⟨.deleteOutput :: .encode v1 useCRF1 :: rest.events, rest.outcome⟩
    else ⟨[], .done outPath⟩

/-- The fast/standard compressed export: an initial `encodeOnce` (CRF mode
exactly when the tier is standard), then the retry loop with
`maxAttempts = 3`, returning `outputPath` when the loop exits. -/
def exportSinglePass (enc : Nat → Bool → EncOut) (target v0 : Nat) (crf0 : Bool)
    (outPath : String) : ExpRun :=
  match enc v0 crf0 with
  | .canceled => ⟨[.encode v0 crf0], .canceled⟩
  | .sized sz =>
      let rest := spRetryAux enc target outPath v0 crf0 sz 0 3
      ⟨.encode v0 crf0 :: rest.events, rest.outcome⟩

/-- The two-pass (high tier) retry loop body: bump `attempts`; reduce the
bitrate by the 0.80 factor with the 100 kbps floor; delete the oversized
output; re-run `encodeTwoPass`. -/
def tpRetryAux (enc2 : Nat → EncOut) (target : Nat) (outPath : String) :
    Nat → Nat → Nat → Nat → ExpRun
  | _, _, _, 0 => ⟨[], .done outPath⟩
  | v, size, attempts, fuel + 1 =>
    if target < size then
      let v1 := nextBitrate 80 v
      match enc2 v1 with
      | .canceled => ⟨[.deleteOutput, .encode2p v1], .canceled⟩
      | .sized sz =>
          let rest := tpRetryAux enc2 target outPath v1 sz (attempts + 1) fuel
          ⟨.deleteOutput :: .encode2p v1 :: rest.events, rest.outcome⟩
    else ⟨[], .done outPath⟩

/-- The high-tier compressed export: an initial `encodeTwoPass`, then the
two-pass retry loop with `maxAttempts = 3`, returning `outputPath`. -/
def exportHighTier (enc2 : Nat → EncOut) (target v0 : Nat) (outPath : String) :
    ExpRun :=
  match enc2 v0 with
  | .canceled => ⟨[.encode2p v0], .canceled⟩
  | .sized sz =>
      let rest := tpRetryAux enc2 target outPath v0 sz 0 3
      ⟨.encode2p v0 :: rest.events, rest.outcome⟩

/-- Encode events of a trace. -/
def isEncodeEv (e : ExpEvent) : Bool :=
  match e with
  | .encode _ _ => true
  | .encode2p _ => true
  | .deleteOutput => false

/-- The encode invocations of a trace, in order. -/
def encodesOf (es : List ExpEvent) : List ExpEvent := es.filter isEncodeEv

/-- A retry tail is a sequence of delete-then-re-encode chunks: every
re-encode is immediately preceded by the deletion of the previous output. -/
def retryChunks : List ExpEvent → Bool
  | [] => true
  | .deleteOutput :: .encode _ _ :: rest => retryChunks rest
  | .deleteOutput :: .encode2p _ :: rest => retryChunks rest
  | _ => false

/-- The single-pass retry ladder from working bitrate `v`: each successive
re-encode runs at `nextBitrate 85` of the previous working bitrate and in
explicit-bitrate (non-CRF) mode. -/
def spChainFrom (v : Nat) : List ExpEvent → Prop
  | [] => True
  | .encode v1 c1 :: rest => v1 = nextBitrate 85 v ∧ c1 = false ∧ spChainFrom v1 rest
  | _ => False

/-- The two-pass retry ladder from working bitrate `v`: each successive
re-encode runs at `nextBitrate 80` of the previous working bitrate. -/
def tpChainFrom (v : Nat) : List ExpEvent → Prop
  | [] => True
  | .encode2p v1 :: rest => v1 = nextBitrate 80 v ∧ tpChainFrom v1 rest
  | _ => False

/-- Every re-encode in the tail was triggered by the previous attempt
overshooting the target size. -/
def spOversized (enc : Nat → Bool → EncOut) (target : Nat) :
    Nat × Bool → List ExpEvent → Prop
  | _, [] => True
  | p, .encode v1 c1 :: rest =>
      (∃ sz, enc p.1 p.2 = .sized sz ∧ target < sz) ∧
        spOversized enc target (v1, c1) rest
  | _, _ => False

/-- Two-pass analogue of `spOversized`. -/
def tpOversized (enc2 : Nat → EncOut) (target : Nat) :
    Nat → List ExpEvent → Prop
  | _, [] => True
  | v, .encode2p v1 :: rest =>
      (∃ sz, enc2 v = .sized sz ∧ target < sz) ∧ tpOversized enc2 target v1 rest
  | _, _ => False

/-! ## File watch adapter ('watch-folder' / 'unwatch-folder') -/

/-- Notifications sent to the renderer by the watcher. -/
inductive WNote
  | added (p : String)
  | removed (p : String)
deriving DecidableEq

/-- Watcher state: the active watcher roots (`folderWatchers` keys), the
per-root `existingFiles` sets and `debounceTimers` maps (tagged with their
root, since each lives in that root's closure), and the notifications sent
so far. -/
structure WatchState where
  watchers : List String
  known : List (String × String)
  timers : List (String × String)
  notes : List WNote
deriving DecidableEq

/-- External collaborators of the watcher: the media-extension filter,
`path.join`, `existsSync`/`statSync` (size), and the 200 ms size-stability
re-stat. -/
structure WatchEnv where
  isVideoExt : String → Bool
  joinPath : String → String → String
  fileSize : String → Option Nat
  sizeStable : String → Bool

/-- A raw `fs.watch` event for `file` under `root`.  Only delivered while the
watcher is open (`watcher.close()` stops delivery, hence the `watchers`
guard); non-video extensions are ignored; otherwise the pending debounce
timer for the full path is cleared and a fresh 500 ms timer is set. -/
def rawEventStep (env : WatchEnv) (s : WatchState) (root file : String) :
    WatchState :=
  if s.watchers.contains root && env.isVideoExt file then
    let p := env.joinPath root file
    { s with timers := (root, p) :: s.timers.filter (fun t => !(t == (root, p))) }
  else s

/-- A debounce timer for `p` under `root` elapsing.  The callback deletes its
timer entry, then: a now-existing untracked file is admitted (and 'added'
emitted) only if non-empty and size-stable; a now-missing tracked file is
dropped and 'removed' emitted.  The callback never consults `watchers`. -/
def fireStep (env : WatchEnv) (s : WatchState) (root p : String) : WatchState :=
  if s.timers.contains (root, p) then
    let s1 := { s with timers := s.timers.filter (fun t => !(t == (root, p))) }
    match env.fileSize p, s.known.contains (root, p) with
    | some sz, false =>
        if sz == 0 then s1
        else if !env.sizeStable p then s1
        else { s1 with known := (root, p) :: s1.known,
                       notes := s1.notes ++ [.added p] }
    | none, true =>
        { s1 with known := s1.known.filter (fun k => !(k == (root, p))),
                  notes := s1.notes ++ [.removed p] }
    | _, _ => s1
  else s

/-- The 'unwatch-folder' handler: close and unregister the watcher for the
root.  `existingFiles` and `debounceTimers` live on in the watch closure
and are not touched. -/
def unwatchStep (s : WatchState) (root : String) : WatchState :=
  { s with watchers := s.watchers.filter (fun r => !(r == root)) }

/-! ## Theorems -/

/-- Claim C3: after pass 1 and with the cancel flag clear, pass 2 is started
exactly when the statistics log exists with at least the minimum plausible
size; an absent or too-small log is a hard rejection and pass 2 is never
started. -/
theorem c3_pass1_log_gate (canceled : Bool) (logStat : Option Nat)
    (h : canceled = false) :
    (checkAfterPass1 canceled logStat = .proceed ↔
      ∃ sz, logStat = some sz ∧ MIN_PASSLOG_SIZE ≤ sz) ∧
    ((logStat = none ∨ ∃ sz, logStat = some sz ∧ sz < MIN_PASSLOG_SIZE) →
      isPass1Failure (checkAfterPass1 canceled logStat) = true ∧
      checkAfterPass1 canceled logStat ≠ .proceed) := by
  subst h
  constructor
  · constructor
    · intro hp
      cases logStat with
      | none => simp [checkAfterPass1] at hp
      | some sz =>
          by_cases hsz : sz < MIN_PASSLOG_SIZE
          · simp [checkAfterPass1, hsz] at hp
          · exact ⟨sz, rfl, by omega⟩
    · rintro ⟨sz, hs, hle⟩
      subst hs
      simp [checkAfterPass1, Nat.not_lt.mpr hle]
  · rintro (hn | ⟨sz, hs, hlt⟩)
    · subst hn; simp [checkAfterPass1, isPass1Failure]
    · subst hs; simp [checkAfterPass1, isPass1Failure, hlt]

/-- Claim C3 witness: a 2 KiB log passes the gate, and with the flag clear an
absent log is a hard failure. -/
theorem c3_pass1_log_gate_witness :
    (false = false) ∧
    ((checkAfterPass1 false (some 2048) = .proceed ↔
      ∃ sz, (some 2048 : Option Nat) = some sz ∧ MIN_PASSLOG_SIZE ≤ sz) ∧
    (((some 2048 : Option Nat) = none ∨
        ∃ sz, (some 2048 : Option Nat) = some sz ∧ sz < MIN_PASSLOG_SIZE) →
      isPass1Failure (checkAfterPass1 false (some 2048)) = true ∧
      checkAfterPass1 false (some 2048) ≠ .proceed)) :=
  ⟨rfl, c3_pass1_log_gate false (some 2048) rfl⟩

/-- Claim C4: the content hash is a function of the first 64 KiB, the file
size and the resolved duration only; two paths whose files agree on those
three components hash identically, with no dependence on the path string
(and, the embedding being a pure function of these inputs, no randomness or
clock dependence). -/
theorem c4_content_hash_path_independent
    (H : List Nat → String) (numStr : Rat → String)
    (files : String → Option (List Nat)) (probeDuration : String → Option Rat)
    (p q : String) (cp cq : List Nat) (dur : Option (Option Rat))
    (hp : files p = some cp) (hq : files q = some cq)
    (hchunk : cp.take CHUNK_SIZE = cq.take CHUNK_SIZE)
    (hlen : cp.length = cq.length)
    (hdur : resolveDuration probeDuration p dur =
      resolveDuration probeDuration q dur) :
    getClipHash H numStr files probeDuration p dur =
      getClipHash H numStr files probeDuration q dur := by
  simp only [getClipHash, calculatePartialHash, hp, hq]
  rw [hchunk, hlen, hdur]

/-- Claim C4 witness: two distinct paths holding the same bytes (a renamed
clip) with a caller-provided duration hash identically. -/
theorem c4_content_hash_path_independent_witness :
    ((fun s => if s = "a.mp4" ∨ s = "b.mp4" then some [1, 2, 3] else none) "a.mp4"
        = some [1, 2, 3]) ∧
    ((fun s => if s = "a.mp4" ∨ s = "b.mp4" then some [1, 2, 3] else none) "b.mp4"
        = some [1, 2, 3]) ∧
    getClipHash (fun l => toString l.length) (fun _ => "d")
        (fun s => if s = "a.mp4" ∨ s = "b.mp4" then some [1, 2, 3] else none)
        (fun _ => none) "a.mp4" (some (some 5)) =
      getClipHash (fun l => toString l.length) (fun _ => "d")
        (fun s => if s = "a.mp4" ∨ s = "b.mp4" then some [1, 2, 3] else none)
        (fun _ => none) "b.mp4" (some (some 5)) := by
  refine ⟨by decide, by decide, ?_⟩
  exact c4_content_hash_path_independent (fun l => toString l.length) (fun _ => "d")
    (fun s => if s = "a.mp4" ∨ s = "b.mp4" then some [1, 2, 3] else none)
    (fun _ => none) "a.mp4" "b.mp4" [1, 2, 3] [1, 2, 3] (some (some 5))
    (by decide) (by decide) rfl rfl rfl

/-- Claim C6 (code bug): on the cancellation path between pass 1 and pass 2
the cleanup removes only the base `-passlogfile` path and leaves the
`-0.log` and `-0.log.mbtree` statistics files behind, while every
settlement path of pass 2 (and the log-too-small rejection) removes all
three; the gate itself does return a canceled result.  The claim states the
evident intent; the cancellation branch of the source is the slip. -/
theorem c6_cancel_leaves_stats_files :
    checkAfterPass1 true (some 4096) = .canceledEarly ∧
    cleanupAt .canceledBetweenPasses afterPass1Files = afterPass1Files ∧
    afterPass1Files.log = true ∧
    afterPass1Files.mbtree = true ∧
    (∀ f, cleanupAt .pass2Success f = ⟨false, false, false⟩) ∧
    (∀ f, cleanupAt .aacWarningSuccess f = ⟨false, false, false⟩) ∧
    (∀ f, cleanupAt .pass2ErrorOrCancel f = ⟨false, false, false⟩) ∧
    (∀ f, cleanupAt .logTooSmallFail f = ⟨false, false, false⟩) :=
  ⟨rfl, rfl, rfl, rfl, fun _ => rfl, fun _ => rfl, fun _ => rfl, fun _ => rfl⟩

/-- Claim C7 counterexample: for a source path with no stat record (the file
does not exist) both cache-path computations still return a path — the stat
error is caught, so the functions do not fail with a not-found error. -/
theorem c7_counterexample :
    ((fun _ : String => (none : Option Stat)) "gone.mp4" = none) ∧
    (∃ cp, computeMetaCachePath
      ⟨"/tmp", fun a b => a ++ "/" ++ b, fun p _ => p, fun _ => ""⟩
      (fun _ => "h") (fun _ => "0") (fun _ => none) "gone.mp4" = .ok cp) ∧
    (∃ tp, computeCachedThumbPath
      ⟨"/tmp", fun a b => a ++ "/" ++ b, fun p _ => p, fun _ => ""⟩
      (fun _ => "h") (fun _ => "0") (fun _ => none) "gone.mp4"
      (some 1) (some 2) = .ok tp) :=
  ⟨rfl, ⟨_, rfl⟩, ⟨_, rfl⟩⟩

/-- Claim C7 amended: when the source file does not exist, the stat error is
caught and each cache-path function returns (never fails) the fallback
path whose hash is keyed by the path string alone — without mtime and size,
the thumbnail variant still folding in the trim chunk. -/
theorem c7_missing_source_fallback_amended
    (env : NodeEnv) (sha1 : Digest) (numStr : Rat → String)
    (fsStat : String → Option Stat) (p : String) (ts te : Option Rat)
    (h : fsStat p = none) :
    computeMetaCachePath env sha1 numStr fsStat p =
      .ok (env.join2 (env.join2 env.tmpdir "vcm-meta")
        (env.basename2 p (env.extname p) ++ "-" ++
          (sha1 [strBytes p]).take 16 ++ ".json")) ∧
    computeCachedThumbPath env sha1 numStr fsStat p ts te =
      .ok (env.join2 (getThumbCacheDir env)
        (env.basename2 p (env.extname p) ++ "-" ++
          (sha1 ([strBytes p] ++ trimChunk numStr ts te)).take 16 ++ ".jpg")) := by
  constructor <;> simp [computeMetaCachePath, computeCachedThumbPath, h]

/-- Claim C7 amended witness: the fallback paths at a concrete missing file. -/
theorem c7_missing_source_fallback_amended_witness :
    ((fun _ : String => (none : Option Stat)) "lost.mkv" = none) ∧
    (computeMetaCachePath ⟨"t", fun a b => a ++ "/" ++ b, fun p _ => p, fun _ => ""⟩
        (fun _ => "hh") (fun _ => "0") (fun _ => none) "lost.mkv" =
      .ok ("t/vcm-meta" ++ "/" ++ ("lost.mkv" ++ "-" ++
        (("hh" : String).take 16) ++ ".json"))) ∧
    (computeCachedThumbPath ⟨"t", fun a b => a ++ "/" ++ b, fun p _ => p, fun _ => ""⟩
        (fun _ => "hh") (fun _ => "0") (fun _ => none) "lost.mkv" none none =
      .ok ("t/vcm-thumbs" ++ "/" ++ ("lost.mkv" ++ "-" ++
        (("hh" : String).take 16) ++ ".jpg"))) := by
  refine ⟨rfl, ?_⟩
  exact c7_missing_source_fallback_amended
    ⟨"t", fun a b => a ++ "/" ++ b, fun p _ => p, fun _ => ""⟩
    (fun _ => "hh") (fun _ => "0") (fun _ => none) "lost.mkv" none none rfl

/-- Bind of a fulfilled Except computation. -/
theorem exceptOk_bind {α β : Type} (a : α) (f : α → Except String β) :
    (Except.ok a >>= f) = f a := rfl

/-- Pure of the Except monad is `.ok`. -/
theorem exceptPure {β : Type} (b : β) : (pure b : Except String β) = .ok b := rfl

/-- Characterization of JS falsiness of an optional number. -/
theorem jsFalsy_eq_true (x : Option Rat) :
    jsFalsy x = true ↔ x = none ∨ x = some 0 := by
  cases x with
  | none => simp [jsFalsy]
  | some v => simp [jsFalsy]

/-- Claim C8 counterexample: with a trim window that is active in the sense of
the thumbnail timestamp logic but whose start bound is 0 (trim 0 to 30),
a parameterized-key miss with the old un-parameterized file on disk serves
the old fallback — `(!trimStart || !trimEnd)` treats the 0 start as "no
trim".  This refutes "whenever a trim window is active (including one whose
start bound is 0), the un-parameterized fallback is never served". -/
theorem c8_counterexample :
    getCachedThumbnailCheck
        ⟨"/tmp", fun a b => a ++ "/" ++ b, fun _ _ => "v", fun _ => ".mp4"⟩
        (fun us => toString us.length) (fun q => toString q)
        (fun p => if p = "v.mp4" then some ⟨0, 100⟩
          else if p = "/tmp/vcm-thumbs/v-3.jpg" then some ⟨0, 1⟩ else none)
        "v.mp4" (some 0) (some 30) = .ok (.oldHit "/tmp/vcm-thumbs/v-3.jpg") ∧
    activeTrim (some 0) (some 30) := by
  exact ⟨by rfl, ⟨0, 30, rfl, rfl, le_refl 0, by norm_num⟩⟩

/-- Claim C8 amended: the old un-parameterized thumbnail is served exactly
when the parameterized key misses, the old file exists, and the trim window
is absent or has a JS-falsy bound (start or end undefined or 0); for an
active trim with both bounds positive the fallback is never served.  A trim
whose start bound is 0 does serve the fallback (see the counterexample). -/
theorem c8_old_thumb_fallback_amended
    (env : NodeEnv) (sha1 : Digest) (numStr : Rat → String)
    (fsStat : String → Option Stat) (videoPath : String)
    (ts te : Option Rat) (outP oldP : String)
    (hout : computeCachedThumbPath env sha1 numStr fsStat videoPath ts te = .ok outP)
    (hold : computeCachedThumbPath env sha1 numStr fsStat videoPath none none
      = .ok oldP) :
    (getCachedThumbnailCheck env sha1 numStr fsStat videoPath ts te =
        .ok (.oldHit oldP) ↔
      fileExists fsStat outP = false ∧ fileExists fsStat oldP = true ∧
        (ts = none ∨ ts = some 0 ∨ te = none ∨ te = some 0)) ∧
    (∀ a b : Rat, ts = some a → te = some b → 0 < a → 0 < b →
      getCachedThumbnailCheck env sha1 numStr fsStat videoPath ts te ≠
        .ok (.oldHit oldP)) := by
  have hrw : getCachedThumbnailCheck env sha1 numStr fsStat videoPath ts te =
      (if fileExists fsStat outP then Except.ok (ThumbServe.hit outP)
       else if fileExists fsStat oldP && (jsFalsy ts || jsFalsy te) then
         Except.ok (ThumbServe.oldHit oldP)
       else Except.ok (ThumbServe.generate outP)) := by
    simp only [getCachedThumbnailCheck, hout, hold, exceptOk_bind, exceptPure]
  constructor
  · constructor
    · intro hc
      rw [hrw] at hc
      by_cases h1 : fileExists fsStat outP = true
      · rw [if_pos h1] at hc
        exact absurd hc (by simp)
      · have h1f : fileExists fsStat outP = false := by
          revert h1; cases fileExists fsStat outP <;> simp
        rw [if_neg (by simp [h1f])] at hc
        by_cases h2 : (fileExists fsStat oldP && (jsFalsy ts || jsFalsy te)) = true
        · rw [if_pos h2] at hc
          rw [Bool.and_eq_true, Bool.or_eq_true] at h2
          refine ⟨h1f, h2.1, ?_⟩
          rcases h2.2 with hF | hF
          · rcases (jsFalsy_eq_true ts).1 hF with h | h
            · exact Or.inl h
            · exact Or.inr (Or.inl h)
          · rcases (jsFalsy_eq_true te).1 hF with h | h
            · exact Or.inr (Or.inr (Or.inl h))
            · exact Or.inr (Or.inr (Or.inr h))
        · rw [if_neg h2] at hc
          exact absurd hc (by simp)
    · rintro ⟨h1f, holdex, hdisj⟩
      have hcond : (fileExists fsStat oldP && (jsFalsy ts || jsFalsy te)) = true := by
        rw [Bool.and_eq_true, Bool.or_eq_true]
        refine ⟨holdex, ?_⟩
        rcases hdisj with h | h | h | h
        · exact Or.inl ((jsFalsy_eq_true ts).2 (Or.inl h))
        · exact Or.inl ((jsFalsy_eq_true ts).2 (Or.inr h))
        · exact Or.inr ((jsFalsy_eq_true te).2 (Or.inl h))
        · exact Or.inr ((jsFalsy_eq_true te).2 (Or.inr h))
      rw [hrw, if_neg (by simp [h1f]), if_pos hcond]
  · intro a b hts hte ha hb hc
    rw [hrw] at hc
    subst hts; subst hte
    have hfa : jsFalsy (some a) = false := by simp [jsFalsy, ha.ne']
    have hfb : jsFalsy (some b) = false := by simp [jsFalsy, hb.ne']
    by_cases h1 : fileExists fsStat outP = true
    · rw [if_pos h1] at hc
      exact absurd hc (by simp)
    · have h1f : fileExists fsStat outP = false := by
        revert h1; cases fileExists fsStat outP <;> simp
      rw [if_neg (by simp [h1f]), if_neg (by simp [hfa, hfb])] at hc
      exact absurd hc (by simp)

/-- Claim C8 amended witness: with a positive active trim (5 to 30), the
missing parameterized key and present old file do not trigger the
fallback path. -/
theorem c8_old_thumb_fallback_amended_witness :
    (computeCachedThumbPath
        ⟨"/tmp", fun a b => a ++ "/" ++ b, fun _ _ => "v", fun _ => ".mp4"⟩
        (fun us => toString us.length) (fun q => toString q)
        (fun p => if p = "v.mp4" then some ⟨0, 100⟩
          else if p = "/tmp/vcm-thumbs/v-3.jpg" then some ⟨0, 1⟩ else none)
        "v.mp4" (some 5) (some 30) = .ok "/tmp/vcm-thumbs/v-4.jpg") ∧
    (computeCachedThumbPath
        ⟨"/tmp", fun a b => a ++ "/" ++ b, fun _ _ => "v", fun _ => ".mp4"⟩
        (fun us => toString us.length) (fun q => toString q)
        (fun p => if p = "v.mp4" then some ⟨0, 100⟩
          else if p = "/tmp/vcm-thumbs/v-3.jpg" then some ⟨0, 1⟩ else none)
        "v.mp4" none none = .ok "/tmp/vcm-thumbs/v-3.jpg") ∧
    getCachedThumbnailCheck
        ⟨"/tmp", fun a b => a ++ "/" ++ b, fun _ _ => "v", fun _ => ".mp4"⟩
        (fun us => toString us.length) (fun q => toString q)
        (fun p => if p = "v.mp4" then some ⟨0, 100⟩
          else if p = "/tmp/vcm-thumbs/v-3.jpg" then some ⟨0, 1⟩ else none)
        "v.mp4" (some 5) (some 30) ≠ .ok (.oldHit "/tmp/vcm-thumbs/v-3.jpg") := by
  refine ⟨by rfl, by rfl, ?_⟩
  exact (c8_old_thumb_fallback_amended
    ⟨"/tmp", fun a b => a ++ "/" ++ b, fun _ _ => "v", fun _ => ".mp4"⟩
    (fun us => toString us.length) (fun q => toString q)
    (fun p => if p = "v.mp4" then some ⟨0, 100⟩
      else if p = "/tmp/vcm-thumbs/v-3.jpg" then some ⟨0, 1⟩ else none)
    "v.mp4" (some 5) (some 30) "/tmp/vcm-thumbs/v-4.jpg" "/tmp/vcm-thumbs/v-3.jpg"
    (by rfl) (by rfl)).2 5 30 rfl rfl (by norm_num) (by norm_num)

/-- A root filtered out of a string list is no longer contained in it. -/
theorem contains_filter_ne (l : List String) (x : String) :
    (l.filter (fun r => !(r == x))).contains x = false := by
  induction l with
  | nil => rfl
  | cons a t ih =>
      by_cases h : a = x
      · subst h; simp [List.filter_cons, ih]
      · simp only [List.filter_cons, beq_iff_eq, h, not_false_eq_true,
          Bool.not_eq_true, if_pos, decide_not]
        simp [List.contains, List.elem, beq_iff_eq, h, Ne.symm h, ih]

/-- Claim C9 counterexample: a raw event schedules a debounce timer; the root
is then unwatched; the timer still fires afterwards and emits an 'added'
notification.  The pending timer survives the unwatch, refuting "every
pending debounce timer for paths under that root is dropped, so no 'added'
or 'removed' notification is ever emitted afterwards". -/
theorem c9_counterexample :
    ((unwatchStep (rawEventStep
        ⟨fun _ => true, fun a b => a ++ "/" ++ b, fun _ => some 5, fun _ => true⟩
        ⟨["r"], [], [], []⟩ "r" "a.mp4") "r").watchers = []) ∧
    ((unwatchStep (rawEventStep
        ⟨fun _ => true, fun a b => a ++ "/" ++ b, fun _ => some 5, fun _ => true⟩
        ⟨["r"], [], [], []⟩ "r" "a.mp4") "r").timers = [("r", "r/a.mp4")]) ∧
    ((fireStep ⟨fun _ => true, fun a b => a ++ "/" ++ b, fun _ => some 5, fun _ => true⟩
        (unwatchStep (rawEventStep
          ⟨fun _ => true, fun a b => a ++ "/" ++ b, fun _ => some 5, fun _ => true⟩
          ⟨["r"], [], [], []⟩ "r" "a.mp4") "r") "r" "r/a.mp4").notes =
      [.added "r/a.mp4"]) := by
  exact ⟨by rfl, by rfl, by rfl⟩

/-- Claim C9 amended: 'unwatch-folder' disposes the watcher — the root is
unregistered, so subsequent raw events for it are ignored — but it does
not drop pending debounce timers or tracked files or emit anything itself,
and a timer firing is entirely independent of the watcher registry (it
commutes with the unwatch), so a timer scheduled before the unwatch still
fires with full effect afterwards. -/
theorem c9_unwatch_amended (env : WatchEnv) (s : WatchState) (root : String) :
    ((unwatchStep s root).watchers = s.watchers.filter (fun r => !(r == root))) ∧
    ((unwatchStep s root).timers = s.timers) ∧
    ((unwatchStep s root).known = s.known) ∧
    ((unwatchStep s root).notes = s.notes) ∧
    (∀ file, rawEventStep env (unwatchStep s root) root file = unwatchStep s root) ∧
    (∀ p, fireStep env (unwatchStep s root) root p =
      unwatchStep (fireStep env s root p) root) := by
  refine ⟨rfl, rfl, rfl, rfl, fun file => ?_, fun p => ?_⟩
  · unfold rawEventStep
    rw [if_neg]
    intro hcond
    rw [Bool.and_eq_true] at hcond
    have hmem := hcond.1
    have hno : (s.watchers.filter (fun r => !(r == root))).contains root = false :=
      contains_filter_ne s.watchers root
    rw [show (unwatchStep s root).watchers
        = s.watchers.filter (fun r => !(r == root)) from rfl] at hmem
    rw [hno] at hmem
    cases hmem
  · show fireStep env (unwatchStep s root) root p
      = unwatchStep (fireStep env s root p) root
    unfold fireStep unwatchStep
    by_cases h1 : s.timers.contains (root, p) = true
    · simp only [h1, if_true]
      cases hfs : env.fileSize p with
      | none =>
          cases hk : s.known.contains (root, p) <;> rfl
      | some sz =>
          cases hk : s.known.contains (root, p) with
          | true => rfl
          | false =>
              by_cases hsz : (sz == 0) = true
              · simp only [hsz, if_true]
              · simp only [Bool.not_eq_true] at hsz
                simp only [hsz, Bool.false_eq_true, if_false]
                by_cases hst : env.sizeStable p = true
                · simp only [hst, Bool.not_true, Bool.false_eq_true, if_false]
                · simp only [Bool.not_eq_true] at hst
                  simp only [hst, Bool.not_false, if_true]
    · simp only [h1, Bool.false_eq_true, if_false]

/-- Setting an index that is present in a list updates its lookup. -/
theorem get?_set_of_get? {α : Type} (l : List α) (i : Nat) (x y : α)
    (h : l.get? i = some x) : (l.set i y).get? i = some y := by
  simp only [List.get?_eq_getElem?] at h ⊢
  rw [List.getElem?_set_self']
  simp [h]

/-- Claim C1 counterexample: for 'get-cached-extracted-audio' the map entry is
deleted when the async body returns the pending inner promise, not when
the computation settles.  After a request and its track launch the entry
is gone while the task is still extracting; a second request then finds no
entry and registers a duplicate task, whose launch starts a second
per-track engine batch for the same key while the first is still in
flight — refuting both removal-at-settlement and the
one-invocation-per-key fan-in for the audio cache. -/
theorem c1_counterexample :
    (runAudio [.request, .launchTracks 0]).entry = none ∧
    (runAudio [.request, .launchTracks 0]).tasks = [.extracting] ∧
    (runAudio [.request, .launchTracks 0, .request]).tasks =
      [.extracting, .probing] ∧
    (runAudio [.request, .launchTracks 0, .request, .launchTracks 1]).tasks =
      [.extracting, .extracting] ∧
    (runAudio [.request, .launchTracks 0, .request, .launchTracks 1]).batches
      = 2 := by
  exact ⟨by decide, by decide, by decide, by decide, by decide⟩

/-- Claim C1 amended: for thumbTasks and metaTasks the single-flight claim
holds as stated — a request for an in-flight key returns that task with
no new invocation, a fresh key launches and registers exactly one, a
further request fans in to it, and the entry is removed at settlement
identically for success, failure and cancellation.  For audioExtractTasks
the entry is removed when the async body returns: together with
settlement on the no-audio, cached-files and probe-error paths
(`bodySettle`), but at track-launch time on the extraction path
(`launchTracks`) — before the extraction settles, and settlement of the
tracks no longer touches the map — so a request that arrives during the
probe phase fans in, while a request arriving after launch and before
settlement registers a duplicate task for the same key. -/
theorem c1_single_flight_amended
    (s s0 : FlightState) (key : String) (t : Nat)
    (hin : s.tasks key = some t) (hfresh : s0.tasks key = none)
    (a : AudioFlightState) (i : Nat) :
    requestTask s key = (t, s) ∧
    (requestTask s0 key).1 = s0.launched ∧
    (requestTask s0 key).2.launched = s0.launched + 1 ∧
    (requestTask s0 key).2.tasks key = some s0.launched ∧
    requestTask (requestTask s0 key).2 key =
      ((requestTask s0 key).1, (requestTask s0 key).2) ∧
    (∀ how, (settleTask s key how).tasks key = none) ∧
    (∀ how, settleTask s key how = settleTask s key .success) ∧
    (∀ j, a.entry = some j → audioStep a .request = a) ∧
    (a.entry = none → audioStep a .request =
      ⟨a.tasks ++ [.probing], some a.tasks.length, a.batches⟩) ∧
    (a.tasks.get? i = some .probing →
      (audioStep a (.bodySettle i)).entry = none ∧
      (audioStep a (.bodySettle i)).tasks.get? i = some .done ∧
      (audioStep a (.bodySettle i)).batches = a.batches) ∧
    (a.tasks.get? i = some .probing →
      (audioStep a (.launchTracks i)).entry = none ∧
      (audioStep a (.launchTracks i)).tasks.get? i = some .extracting ∧
      (audioStep a (.launchTracks i)).batches = a.batches + 1) ∧
    (a.tasks.get? i = some .extracting →
      (audioStep a (.settleTracks i)).entry = a.entry ∧
      (audioStep a (.settleTracks i)).batches = a.batches) ∧
    (a.entry = none → a.tasks.get? i = some .extracting →
      (audioStep a .request).tasks.length = a.tasks.length + 1 ∧
      (audioStep a .request).entry = some a.tasks.length ∧
      (audioStep a .request).tasks.get? i = some .extracting) := by
  refine ⟨?_, ?_, ?_, ?_, ?_, fun how => ?_, fun how => rfl,
    ?_, ?_, ?_, ?_, ?_, ?_⟩
  · simp [requestTask, hin]
  · simp [requestTask, hfresh]
  · simp [requestTask, hfresh]
  · simp [requestTask, hfresh]
  · simp [requestTask, hfresh]
  · simp [settleTask]
  · intro j ha; simp [audioStep, ha]
  · intro ha; simp [audioStep, ha]
  · intro hp
    have hp2 : a.tasks[i]? = some AudioTaskPhase.probing := by
      rw [← List.get?_eq_getElem?]; exact hp
    have hset : (a.tasks.set i AudioTaskPhase.done)[i]? =
        some AudioTaskPhase.done := by
      rw [← List.get?_eq_getElem?]
      exact get?_set_of_get? a.tasks i AudioTaskPhase.probing
        AudioTaskPhase.done hp
    exact ⟨by simp [audioStep, hp2], by simp [audioStep, hp2, hset],
      by simp [audioStep, hp2]⟩
  · intro hp
    have hp2 : a.tasks[i]? = some AudioTaskPhase.probing := by
      rw [← List.get?_eq_getElem?]; exact hp
    have hset : (a.tasks.set i AudioTaskPhase.extracting)[i]? =
        some AudioTaskPhase.extracting := by
      rw [← List.get?_eq_getElem?]
      exact get?_set_of_get? a.tasks i AudioTaskPhase.probing
        AudioTaskPhase.extracting hp
    exact ⟨by simp [audioStep, hp2], by simp [audioStep, hp2, hset],
      by simp [audioStep, hp2]⟩
  · intro hx
    have hx2 : a.tasks[i]? = some AudioTaskPhase.extracting := by
      rw [← List.get?_eq_getElem?]; exact hx
    exact ⟨by simp [audioStep, hx2], by simp [audioStep, hx2]⟩
  · intro ha hx
    have hx2 : a.tasks[i]? = some AudioTaskPhase.extracting := by
      rw [← List.get?_eq_getElem?]; exact hx
    have hlt : i < a.tasks.length := by
      by_contra hge
      rw [List.getElem?_eq_none (by omega)] at hx2
      cases hx2
    refine ⟨by simp [audioStep, ha], by simp [audioStep, ha], ?_⟩
    have happ : (a.tasks ++ [AudioTaskPhase.probing])[i]? =
        some AudioTaskPhase.extracting := by
      rw [List.getElem?_append, if_pos hlt]
      exact hx2
    simp [audioStep, ha, happ]

/-- Claim C1 amended witness: the concrete thumbnail map with task 0 in
flight under "k", and a concrete audio task whose launch deletes the
entry while it is still extracting. -/
theorem c1_single_flight_amended_witness :
    ((⟨fun k => if k = "k" then some 0 else none, 1⟩ : FlightState).tasks "k"
      = some 0) ∧
    ((⟨fun _ => none, 0⟩ : FlightState).tasks "k" = none) ∧
    requestTask ⟨fun k => if k = "k" then some 0 else none, 1⟩ "k" =
      (0, ⟨fun k => if k = "k" then some 0 else none, 1⟩) ∧
    ((⟨[AudioTaskPhase.probing], some 0, 0⟩ : AudioFlightState).tasks.get? 0
      = some .probing) ∧
    (audioStep ⟨[.probing], some 0, 0⟩ (.launchTracks 0)).entry = none ∧
    (audioStep ⟨[.probing], some 0, 0⟩ (.launchTracks 0)).tasks.get? 0 =
      some .extracting ∧
    (audioStep ⟨[.probing], some 0, 0⟩ (.launchTracks 0)).batches = 0 + 1 := by
  have h := c1_single_flight_amended
    ⟨fun k => if k = "k" then some 0 else none, 1⟩ ⟨fun _ => none, 0⟩ "k" 0
    (by decide) rfl ⟨[.probing], some 0, 0⟩ 0
  have hl := h.2.2.2.2.2.2.2.2.2.2.1 (by decide)
  exact ⟨by decide, rfl, h.1, by decide, hl.1, hl.2.1, hl.2.2⟩

/-- Claim C10: when the in-memory and on-disk caches miss and the probe
rejects, 'get-cached-metadata' resolves with null and stores nothing in
either cache. -/
theorem c10_probe_failure_resolves_null
    (env : NodeEnv) (sha1 : Digest) (numStr : Rat → String)
    (fsStat : String → Option Stat)
    (mem disk : List (String × String)) (probe : String → Except String String)
    (writeOk : Bool) (videoPath cachePath : String) (e : String)
    (hmem : lookupAssoc mem videoPath = none)
    (hcp : computeMetaCachePath env sha1 numStr fsStat videoPath = .ok cachePath)
    (hdisk : lookupAssoc disk cachePath = none)
    (hprobe : probe videoPath = .error e) :
    getCachedMetadata env sha1 numStr fsStat mem disk probe writeOk videoPath =
      ⟨none, mem, disk⟩ := by
  simp [getCachedMetadata, hmem, hcp, hdisk, hprobe]

/-- Claim C10 witness: a concrete failing probe with empty caches. -/
theorem c10_probe_failure_resolves_null_witness :
    (lookupAssoc [] "v" = none) ∧
    (computeMetaCachePath ⟨"t", fun a b => a ++ "/" ++ b, fun p _ => p, fun _ => ""⟩
      (fun _ => "") (fun _ => "") (fun _ => none) "v" = .ok "t/vcm-meta/v-.json") ∧
    (lookupAssoc [] "t/vcm-meta/v-.json" = none) ∧
    ((fun _ : String => (Except.error "boom" : Except String String)) "v"
      = .error "boom") ∧
    getCachedMetadata ⟨"t", fun a b => a ++ "/" ++ b, fun p _ => p, fun _ => ""⟩
        (fun _ => "") (fun _ => "") (fun _ => none) [] []
        (fun _ => .error "boom") true "v" = ⟨none, [], []⟩ := by
  refine ⟨rfl, rfl, rfl, rfl, ?_⟩
  exact c10_probe_failure_resolves_null
    ⟨"t", fun a b => a ++ "/" ++ b, fun p _ => p, fun _ => ""⟩
    (fun _ => "") (fun _ => "") (fun _ => none) [] []
    (fun _ => .error "boom") true "v" "t/vcm-meta/v-.json" "boom"
    rfl rfl rfl rfl

/-- Filtering a delete event out of a trace. -/
theorem encodesOf_cons_del (es : List ExpEvent) :
    encodesOf (.deleteOutput :: es) = encodesOf es := by
  simp [encodesOf, List.filter, isEncodeEv]

/-- Filtering keeps a single-pass encode event. -/
theorem encodesOf_cons_enc (v : Nat) (c : Bool) (es : List ExpEvent) :
    encodesOf (.encode v c :: es) = .encode v c :: encodesOf es := by
  simp [encodesOf, List.filter, isEncodeEv]

/-- Filtering keeps a two-pass encode event. -/
theorem encodesOf_cons_enc2p (v : Nat) (es : List ExpEvent) :
    encodesOf (.encode2p v :: es) = .encode2p v :: encodesOf es := by
  simp [encodesOf, List.filter, isEncodeEv]

/-- One unrolling of the single-pass retry loop. -/
theorem spRetryAux_succ (enc : Nat → Bool → EncOut) (target : Nat)
    (outPath : String) (v : Nat) (c : Bool) (s a f : Nat) :
    spRetryAux enc target outPath v c s a (f + 1) =
      (if target < s then
        match enc (nextBitrate 85 v) (if c && (a + 1) == 1 then false else c) with
        | .canceled =>
            ⟨[.deleteOutput,
              .encode (nextBitrate 85 v) (if c && (a + 1) == 1 then false else c)],
             .canceled⟩
        | .sized sz =>
            ⟨.deleteOutput ::
              .encode (nextBitrate 85 v) (if c && (a + 1) == 1 then false else c) ::
              (spRetryAux enc target outPath (nextBitrate 85 v)
                (if c && (a + 1) == 1 then false else c) sz (a + 1) f).events,
             (spRetryAux enc target outPath (nextBitrate 85 v)
                (if c && (a + 1) == 1 then false else c) sz (a + 1) f).outcome⟩
      else ⟨[], .done outPath⟩) := rfl

/-- The single-pass retry loop resolves with the output path whenever no
attempt cancels. -/
theorem spRetryAux_outcome (enc : Nat → Bool → EncOut) (target : Nat)
    (outPath : String) (h : ∀ v c, enc v c ≠ .canceled) :
    ∀ fuel v c s a,
      (spRetryAux enc target outPath v c s a fuel).outcome = .done outPath := by
  intro fuel
  induction fuel with
  | zero => intro v c s a; rfl
  | succ f ih =>
      intro v c s a
      rw [spRetryAux_succ]
      by_cases hs : target < s
      · rw [if_pos hs]
        cases henc : enc (nextBitrate 85 v) (if c && (a + 1) == 1 then false else c) with
        | canceled => exact absurd henc (h _ _)
        | sized sz => exact ih _ _ _ _
      · rw [if_neg hs]

/-- The single-pass retry loop re-encodes at most `fuel` times. -/
theorem spRetryAux_len (enc : Nat → Bool → EncOut) (target : Nat)
    (outPath : String) :
    ∀ fuel v c s a,
      (encodesOf (spRetryAux enc target outPath v c s a fuel).events).length ≤ fuel := by
  intro fuel
  induction fuel with
  | zero => intro v c s a; simp [spRetryAux, encodesOf, List.filter]
  | succ f ih =>
      intro v c s a
      rw [spRetryAux_succ]
      by_cases hs : target < s
      · rw [if_pos hs]
        cases henc : enc (nextBitrate 85 v) (if c && (a + 1) == 1 then false else c) with
        | canceled =>
            simp only [encodesOf, List.filter, isEncodeEv, List.length_cons,
              List.length_nil]
            omega
        | sized sz =>
            rw [show (ExpRun.mk (ExpEvent.deleteOutput ::
                .encode (nextBitrate 85 v) (if c && (a + 1) == 1 then false else c) ::
                (spRetryAux enc target outPath (nextBitrate 85 v)
                  (if c && (a + 1) == 1 then false else c) sz (a + 1) f).events)
                ((spRetryAux enc target outPath (nextBitrate 85 v)
                  (if c && (a + 1) == 1 then false else c) sz (a + 1) f).outcome)).events
              = ExpEvent.deleteOutput ::
                .encode (nextBitrate 85 v) (if c && (a + 1) == 1 then false else c) ::
                (spRetryAux enc target outPath (nextBitrate 85 v)
                  (if c && (a + 1) == 1 then false else c) sz (a + 1) f).events from rfl,
              encodesOf_cons_del, encodesOf_cons_enc]
            exact Nat.succ_le_succ (ih _ _ _ _)
      · rw [if_neg hs]
        simp [encodesOf, List.filter]

/-- On reachable states (CRF only at attempt 0) every single-pass re-encode
runs the `nextBitrate 85` ladder in explicit-bitrate mode. -/
theorem spRetryAux_chain (enc : Nat → Bool → EncOut) (target : Nat)
    (outPath : String) :
    ∀ fuel v c s a, (c = true → a = 0) →
      spChainFrom v (encodesOf (spRetryAux enc target outPath v c s a fuel).events) := by
  intro fuel
  induction fuel with
  | zero =>
      intro v c s a _
      simp [spRetryAux, encodesOf, List.filter, spChainFrom]
  | succ f ih =>
      intro v c s a hc
      rw [spRetryAux_succ]
      by_cases hs : target < s
      · rw [if_pos hs]
        have hc1 : (if c && (a + 1) == 1 then false else c) = false := by
          cases c with
          | true => simp [hc rfl]
          | false => simp
        rw [hc1]
        cases henc : enc (nextBitrate 85 v) false with
        | canceled =>
            rw [show (ExpRun.mk [ExpEvent.deleteOutput, .encode (nextBitrate 85 v) false]
                ExportOutcome.canceled).events
              = [ExpEvent.deleteOutput, .encode (nextBitrate 85 v) false] from rfl,
              encodesOf_cons_del, encodesOf_cons_enc]
            exact ⟨rfl, rfl, trivial⟩
        | sized sz =>
            rw [show (ExpRun.mk (ExpEvent.deleteOutput :: .encode (nextBitrate 85 v) false ::
                (spRetryAux enc target outPath (nextBitrate 85 v) false sz (a + 1) f).events)
                ((spRetryAux enc target outPath (nextBitrate 85 v) false sz (a + 1) f).outcome)).events
              = ExpEvent.deleteOutput :: .encode (nextBitrate 85 v) false ::
                (spRetryAux enc target outPath (nextBitrate 85 v) false sz (a + 1) f).events from rfl,
              encodesOf_cons_del, encodesOf_cons_enc]
            exact ⟨rfl, rfl, ih _ _ _ _ (fun hf => Bool.noConfusion hf)⟩
      · rw [if_neg hs]
        simp [encodesOf, List.filter, spChainFrom]

/-- Every single-pass re-encode is triggered by the previous attempt
overshooting the target. -/
theorem spRetryAux_oversized (enc : Nat → Bool → EncOut) (target : Nat)
    (outPath : String) (h : ∀ v c, enc v c ≠ .canceled) :
    ∀ fuel v c s a, enc v c = .sized s →
      spOversized enc target (v, c)
        (encodesOf (spRetryAux enc target outPath v c s a fuel).events) := by
  intro fuel
  induction fuel with
  | zero =>
      intro v c s a _
      simp [spRetryAux, encodesOf, List.filter, spOversized]
  | succ f ih =>
      intro v c s a hvc
      rw [spRetryAux_succ]
      by_cases hs : target < s
      · rw [if_pos hs]
        cases henc : enc (nextBitrate 85 v) (if c && (a + 1) == 1 then false else c) with
        | canceled => exact absurd henc (h _ _)
        | sized sz =>
            rw [show (ExpRun.mk (ExpEvent.deleteOutput ::
                .encode (nextBitrate 85 v) (if c && (a + 1) == 1 then false else c) ::
                (spRetryAux enc target outPath (nextBitrate 85 v)
                  (if c && (a + 1) == 1 then false else c) sz (a + 1) f).events)
                ((spRetryAux enc target outPath (nextBitrate 85 v)
                  (if c && (a + 1) == 1 then false else c) sz (a + 1) f).outcome)).events
              = ExpEvent.deleteOutput ::
                .encode (nextBitrate 85 v) (if c && (a + 1) == 1 then false else c) ::
                (spRetryAux enc target outPath (nextBitrate 85 v)
                  (if c && (a + 1) == 1 then false else c) sz (a + 1) f).events from rfl,
              encodesOf_cons_del, encodesOf_cons_enc]
            exact ⟨⟨s, hvc, hs⟩, ih _ _ _ _ henc⟩
      · rw [if_neg hs]
        simp [encodesOf, List.filter, spOversized]

/-- The single-pass retry trace is a sequence of delete-then-re-encode
chunks. -/
theorem spRetryAux_chunks (enc : Nat → Bool → EncOut) (target : Nat)
    (outPath : String) :
    ∀ fuel v c s a,
      retryChunks (spRetryAux enc target outPath v c s a fuel).events = true := by
  intro fuel
  induction fuel with
  | zero => intro v c s a; rfl
  | succ f ih =>
      intro v c s a
      rw [spRetryAux_succ]
      by_cases hs : target < s
      · rw [if_pos hs]
        cases henc : enc (nextBitrate 85 v) (if c && (a + 1) == 1 then false else c) with
        | canceled => rfl
        | sized sz => exact ih _ _ _ _
      · rw [if_neg hs]
        rfl

/-- An oversized attempt with fuel remaining triggers at least one retry. -/
theorem spRetryAux_nonempty (enc : Nat → Bool → EncOut) (target : Nat)
    (outPath : String) (f v : Nat) (c : Bool) (s a : Nat) (hs : target < s) :
    encodesOf (spRetryAux enc target outPath v c s a (f + 1)).events ≠ [] := by
  rw [spRetryAux_succ, if_pos hs]
  cases henc : enc (nextBitrate 85 v) (if c && (a + 1) == 1 then false else c) with
  | canceled => simp [encodesOf_cons_del, encodesOf_cons_enc]
  | sized sz =>
      rw [show (ExpRun.mk (ExpEvent.deleteOutput ::
          .encode (nextBitrate 85 v) (if c && (a + 1) == 1 then false else c) ::
          (spRetryAux enc target outPath (nextBitrate 85 v)
            (if c && (a + 1) == 1 then false else c) sz (a + 1) f).events)
          ((spRetryAux enc target outPath (nextBitrate 85 v)
            (if c && (a + 1) == 1 then false else c) sz (a + 1) f).outcome)).events
        = ExpEvent.deleteOutput ::
          .encode (nextBitrate 85 v) (if c && (a + 1) == 1 then false else c) ::
          (spRetryAux enc target outPath (nextBitrate 85 v)
            (if c && (a + 1) == 1 then false else c) sz (a + 1) f).events from rfl,
        encodesOf_cons_del, encodesOf_cons_enc]
      simp

/-- One unrolling of the two-pass retry loop. -/
theorem tpRetryAux_succ (enc2 : Nat → EncOut) (target : Nat) (outPath : String)
    (v s a f : Nat) :
    tpRetryAux enc2 target outPath v s a (f + 1) =
      (if target < s then
        match enc2 (nextBitrate 80 v) with
        | .canceled => ⟨[.deleteOutput, .encode2p (nextBitrate 80 v)], .canceled⟩
        | .sized sz =>
            ⟨.deleteOutput :: .encode2p (nextBitrate 80 v) ::
              (tpRetryAux enc2 target outPath (nextBitrate 80 v) sz (a + 1) f).events,
             (tpRetryAux enc2 target outPath (nextBitrate 80 v) sz (a + 1) f).outcome⟩
      else ⟨[], .done outPath⟩) := rfl

/-- The two-pass retry loop resolves with the output path whenever no attempt
cancels. -/
theorem tpRetryAux_outcome (enc2 : Nat → EncOut) (target : Nat)
    (outPath : String) (h : ∀ v, enc2 v ≠ .canceled) :
    ∀ fuel v s a,
      (tpRetryAux enc2 target outPath v s a fuel).outcome = .done outPath := by
  intro fuel
  induction fuel with
  | zero => intro v s a; rfl
  | succ f ih =>
      intro v s a
      rw [tpRetryAux_succ]
      by_cases hs : target < s
      · rw [if_pos hs]
        cases henc : enc2 (nextBitrate 80 v) with
        | canceled => exact absurd henc (h _)
        | sized sz => exact ih _ _ _
      · rw [if_neg hs]

/-- The two-pass retry loop re-encodes at most `fuel` times. -/
theorem tpRetryAux_len (enc2 : Nat → EncOut) (target : Nat) (outPath : String) :
    ∀ fuel v s a,
      (encodesOf (tpRetryAux enc2 target outPath v s a fuel).events).length ≤ fuel := by
  intro fuel
  induction fuel with
  | zero => intro v s a; simp [tpRetryAux, encodesOf, List.filter]
  | succ f ih =>
      intro v s a
      rw [tpRetryAux_succ]
      by_cases hs : target < s
      · rw [if_pos hs]
        cases henc : enc2 (nextBitrate 80 v) with
        | canceled =>
            simp only [encodesOf, List.filter, isEncodeEv, List.length_cons,
              List.length_nil]
            omega
        | sized sz =>
            rw [show (ExpRun.mk (ExpEvent.deleteOutput :: .encode2p (nextBitrate 80 v) ::
                (tpRetryAux enc2 target outPath (nextBitrate 80 v) sz (a + 1) f).events)
                ((tpRetryAux enc2 target outPath (nextBitrate 80 v) sz (a + 1) f).outcome)).events
              = ExpEvent.deleteOutput :: .encode2p (nextBitrate 80 v) ::
                (tpRetryAux enc2 target outPath (nextBitrate 80 v) sz (a + 1) f).events from rfl,
              encodesOf_cons_del, encodesOf_cons_enc2p]
            exact Nat.succ_le_succ (ih _ _ _)
      · rw [if_neg hs]
        simp [encodesOf, List.filter]

/-- Every two-pass re-encode runs the `nextBitrate 80` ladder. -/
theorem tpRetryAux_chain (enc2 : Nat → EncOut) (target : Nat) (outPath : String) :
    ∀ fuel v s a,
      tpChainFrom v (encodesOf (tpRetryAux enc2 target outPath v s a fuel).events) := by
  intro fuel
  induction fuel with
  | zero => intro v s a; simp [tpRetryAux, encodesOf, List.filter, tpChainFrom]
  | succ f ih =>
      intro v s a
      rw [tpRetryAux_succ]
      by_cases hs : target < s
      · rw [if_pos hs]
        cases henc : enc2 (nextBitrate 80 v) with
        | canceled =>
            rw [show (ExpRun.mk [ExpEvent.deleteOutput, .encode2p (nextBitrate 80 v)]
                ExportOutcome.canceled).events
              = [ExpEvent.deleteOutput, .encode2p (nextBitrate 80 v)] from rfl,
              encodesOf_cons_del, encodesOf_cons_enc2p]
            exact ⟨rfl, trivial⟩
        | sized sz =>
            rw [show (ExpRun.mk (ExpEvent.deleteOutput :: .encode2p (nextBitrate 80 v) ::
                (tpRetryAux enc2 target outPath (nextBitrate 80 v) sz (a + 1) f).events)
                ((tpRetryAux enc2 target outPath (nextBitrate 80 v) sz (a + 1) f).outcome)).events
              = ExpEvent.deleteOutput :: .encode2p (nextBitrate 80 v) ::
                (tpRetryAux enc2 target outPath (nextBitrate 80 v) sz (a + 1) f).events from rfl,
              encodesOf_cons_del, encodesOf_cons_enc2p]
            exact ⟨rfl, ih _ _ _⟩
      · rw [if_neg hs]
        simp [encodesOf, List.filter, tpChainFrom]

/-- Every two-pass re-encode is triggered by the previous attempt
overshooting the target. -/
theorem tpRetryAux_oversized (enc2 : Nat → EncOut) (target : Nat)
    (outPath : String) (h : ∀ v, enc2 v ≠ .canceled) :
    ∀ fuel v s a, enc2 v = .sized s →
      tpOversized enc2 target v
        (encodesOf (tpRetryAux enc2 target outPath v s a fuel).events) := by
  intro fuel
  induction fuel with
  | zero => intro v s a _; simp [tpRetryAux, encodesOf, List.filter, tpOversized]
  | succ f ih =>
      intro v s a hv
      rw [tpRetryAux_succ]
      by_cases hs : target < s
      · rw [if_pos hs]
        cases henc : enc2 (nextBitrate 80 v) with
        | canceled => exact absurd henc (h _)
        | sized sz =>
            rw [show (ExpRun.mk (ExpEvent.deleteOutput :: .encode2p (nextBitrate 80 v) ::
                (tpRetryAux enc2 target outPath (nextBitrate 80 v) sz (a + 1) f).events)
                ((tpRetryAux enc2 target outPath (nextBitrate 80 v) sz (a + 1) f).outcome)).events
              = ExpEvent.deleteOutput :: .encode2p (nextBitrate 80 v) ::
                (tpRetryAux enc2 target outPath (nextBitrate 80 v) sz (a + 1) f).events from rfl,
              encodesOf_cons_del, encodesOf_cons_enc2p]
            exact ⟨⟨s, hv, hs⟩, ih _ _ _ henc⟩
      · rw [if_neg hs]
        simp [encodesOf, List.filter, tpOversized]

/-- The two-pass retry trace is a sequence of delete-then-re-encode chunks. -/
theorem tpRetryAux_chunks (enc2 : Nat → EncOut) (target : Nat) (outPath : String) :
    ∀ fuel v s a,
      retryChunks (tpRetryAux enc2 target outPath v s a fuel).events = true := by
  intro fuel
  induction fuel with
  | zero => intro v s a; rfl
  | succ f ih =>
      intro v s a
      rw [tpRetryAux_succ]
      by_cases hs : target < s
      · rw [if_pos hs]
        cases henc : enc2 (nextBitrate 80 v) with
        | canceled => rfl
        | sized sz => exact ih _ _ _
      · rw [if_neg hs]
        rfl

/-- An oversized two-pass attempt with fuel remaining triggers at least one
retry. -/
theorem tpRetryAux_nonempty (enc2 : Nat → EncOut) (target : Nat)
    (outPath : String) (f v s a : Nat) (hs : target < s) :
    encodesOf (tpRetryAux enc2 target outPath v s a (f + 1)).events ≠ [] := by
  rw [tpRetryAux_succ, if_pos hs]
  cases henc : enc2 (nextBitrate 80 v) with
  | canceled => simp [encodesOf_cons_del, encodesOf_cons_enc2p]
  | sized sz =>
      rw [show (ExpRun.mk (ExpEvent.deleteOutput :: .encode2p (nextBitrate 80 v) ::
          (tpRetryAux enc2 target outPath (nextBitrate 80 v) sz (a + 1) f).events)
          ((tpRetryAux enc2 target outPath (nextBitrate 80 v) sz (a + 1) f).outcome)).events
        = ExpEvent.deleteOutput :: .encode2p (nextBitrate 80 v) ::
          (tpRetryAux enc2 target outPath (nextBitrate 80 v) sz (a + 1) f).events from rfl,
        encodesOf_cons_del, encodesOf_cons_enc2p]
      simp

/-- Claim C2: for the size-targeted compressed export loops (single-pass for
fast/standard, two-pass for high), when no attempt is canceled: the export
always returns the output path (never fails); at most 3 re-encodes follow
the initial encode (at most 4 encodes in total); the trace starts with the
initial attempt at the derived bitrate (CRF exactly for the standard
tier) and its retry tail follows the multiplicative ladder —
`nextBitrate 85` switching to explicit-bitrate mode for single-pass,
`nextBitrate 80` for two-pass, each with the 100 kbps floor — with every
retry triggered by an oversized previous attempt; each re-encode is
immediately preceded by deletion of the oversized output; and an oversized
initial attempt does trigger a retry. -/
theorem c2_size_target_retry_loop
    (enc : Nat → Bool → EncOut) (enc2 : Nat → EncOut) (target v0 : Nat)
    (crf0 : Bool) (outPath : String)
    (h1 : ∀ v c, enc v c ≠ .canceled) (h2 : ∀ v, enc2 v ≠ .canceled) :
    (exportSinglePass enc target v0 crf0 outPath).outcome = .done outPath ∧
    (exportHighTier enc2 target v0 outPath).outcome = .done outPath ∧
    (encodesOf (exportSinglePass enc target v0 crf0 outPath).events).length ≤ 4 ∧
    (encodesOf (exportHighTier enc2 target v0 outPath).events).length ≤ 4 ∧
    (∃ tail, encodesOf (exportSinglePass enc target v0 crf0 outPath).events =
        .encode v0 crf0 :: tail ∧ spChainFrom v0 tail ∧
        spOversized enc target (v0, crf0) tail) ∧
    (∃ tail, encodesOf (exportHighTier enc2 target v0 outPath).events =
        .encode2p v0 :: tail ∧ tpChainFrom v0 tail ∧
        tpOversized enc2 target v0 tail) ∧
    retryChunks (exportSinglePass enc target v0 crf0 outPath).events.tail = true ∧
    retryChunks (exportHighTier enc2 target v0 outPath).events.tail = true ∧
    (∀ sz, enc v0 crf0 = .sized sz → target < sz →
      2 ≤ (encodesOf (exportSinglePass enc target v0 crf0 outPath).events).length) ∧
    (∀ sz, enc2 v0 = .sized sz → target < sz →
      2 ≤ (encodesOf (exportHighTier enc2 target v0 outPath).events).length) := by
  cases henc0 : enc v0 crf0 with
  | canceled => exact absurd henc0 (h1 _ _)
  | sized sz0 =>
  cases henc2 : enc2 v0 with
  | canceled => exact absurd henc2 (h2 _)
  | sized sz2 =>
  have hspev : (exportSinglePass enc target v0 crf0 outPath).events =
      .encode v0 crf0 :: (spRetryAux enc target outPath v0 crf0 sz0 0 3).events := by
    simp [exportSinglePass, henc0]
  have hspout : (exportSinglePass enc target v0 crf0 outPath).outcome =
      (spRetryAux enc target outPath v0 crf0 sz0 0 3).outcome := by
    simp [exportSinglePass, henc0]
  have htpev : (exportHighTier enc2 target v0 outPath).events =
      .encode2p v0 :: (tpRetryAux enc2 target outPath v0 sz2 0 3).events := by
    simp [exportHighTier, henc2]
  have htpout : (exportHighTier enc2 target v0 outPath).outcome =
      (tpRetryAux enc2 target outPath v0 sz2 0 3).outcome := by
    simp [exportHighTier, henc2]
  refine ⟨?_, ?_, ?_, ?_, ?_, ?_, ?_, ?_, ?_, ?_⟩
  · rw [hspout]; exact spRetryAux_outcome enc target outPath h1 3 v0 crf0 sz0 0
  · rw [htpout]; exact tpRetryAux_outcome enc2 target outPath h2 3 v0 sz2 0
  · rw [hspev, encodesOf_cons_enc]
    exact Nat.succ_le_succ (spRetryAux_len enc target outPath 3 v0 crf0 sz0 0)
  · rw [htpev, encodesOf_cons_enc2p]
    exact Nat.succ_le_succ (tpRetryAux_len enc2 target outPath 3 v0 sz2 0)
  · refine ⟨encodesOf (spRetryAux enc target outPath v0 crf0 sz0 0 3).events, ?_, ?_, ?_⟩
    · rw [hspev, encodesOf_cons_enc]
    · exact spRetryAux_chain enc target outPath 3 v0 crf0 sz0 0 (fun _ => rfl)
    · exact spRetryAux_oversized enc target outPath h1 3 v0 crf0 sz0 0 henc0
  · refine ⟨encodesOf (tpRetryAux enc2 target outPath v0 sz2 0 3).events, ?_, ?_, ?_⟩
    · rw [htpev, encodesOf_cons_enc2p]
    · exact tpRetryAux_chain enc2 target outPath 3 v0 sz2 0
    · exact tpRetryAux_oversized enc2 target outPath h2 3 v0 sz2 0 henc2
  · rw [hspev]
    exact spRetryAux_chunks enc target outPath 3 v0 crf0 sz0 0
  · rw [htpev]
    exact tpRetryAux_chunks enc2 target outPath 3 v0 sz2 0
  · intro sz hsz hlt
    injection hsz with hss
    subst hss
    rw [hspev, encodesOf_cons_enc]
    have hne := spRetryAux_nonempty enc target outPath 2 v0 crf0 sz0 0 hlt
    have hpos := List.length_pos.mpr hne
    simpa using Nat.succ_le_succ hpos
  · intro sz hsz hlt
    injection hsz with hss
    subst hss
    rw [htpev, encodesOf_cons_enc2p]
    have hne := tpRetryAux_nonempty enc2 target outPath 2 v0 sz2 0 hlt
    have hpos := List.length_pos.mpr hne
    simpa using Nat.succ_le_succ hpos

/-- Claim C2 witness: a stub encoder whose outputs always fit the target —
the export performs the single attempt and returns the path. -/
theorem c2_size_target_retry_loop_witness :
    (∀ v : Nat, ∀ c : Bool,
      (fun (_ : Nat) (_ : Bool) => EncOut.sized 5) v c ≠ EncOut.canceled) ∧
    (∀ v : Nat, (fun (_ : Nat) => EncOut.sized 5) v ≠ EncOut.canceled) ∧
    (exportSinglePass (fun _ _ => .sized 5) 10 1000 true "o.mp4").outcome =
      .done "o.mp4" ∧
    (encodesOf (exportHighTier (fun _ => .sized 5) 10 1000 "o.mp4").events).length ≤ 4 := by
  have h1 : ∀ v : Nat, ∀ c : Bool,
      (fun (_ : Nat) (_ : Bool) => EncOut.sized 5) v c ≠ EncOut.canceled := by
    intro v c h; exact EncOut.noConfusion h
  have h2 : ∀ v : Nat, (fun (_ : Nat) => EncOut.sized 5) v ≠ EncOut.canceled := by
    intro v h; exact EncOut.noConfusion h
  have hmain := c2_size_target_retry_loop (fun _ _ => .sized 5) (fun _ => .sized 5)
    10 1000 true "o.mp4" h1 h2
  exact ⟨h1, h2, hmain.1, hmain.2.2.2.1⟩

/-- Looking up a freshly deposited track output. -/
theorem lookupFile_cons (i sz j : Nat) (files : List (Nat × Nat)) :
    lookupFile ((i, sz) :: files) j =
      if i == j then some sz else lookupFile files j := by
  unfold lookupFile
  rw [List.find?_cons]
  by_cases h : (i == j) = true
  · simp [h]
  · have hf : (i == j) = false := by revert h; cases (i == j) <;> simp
    simp [hf]

/-- A successful lookup pinpoints a file present in the directory. -/
theorem lookupFile_mem (files : List (Nat × Nat)) (j s : Nat)
    (h : lookupFile files j = some s) : (j, s) ∈ files := by
  unfold lookupFile at h
  cases hf : files.find? (fun f => f.1 == j) with
  | none => rw [hf] at h; cases h
  | some q =>
      rw [hf] at h
      have hq := List.find?_some hf
      have hmem : q ∈ files := List.mem_of_find?_eq_some hf
      obtain ⟨a, b⟩ := q
      have hq1 : a = j := by simpa using hq
      have hq2 : b = s := by simpa using h
      subst hq1; subst hq2
      exact hmem

/-- A settled extraction promise stays settled through a later event. -/
theorem extractStep_settled_mono (expected : Nat) (cacheDir : String)
    (res : Nat → TrackResult) (st : ExtractState) (i : Nat)
    (x : ExtractOutcome × List (Nat × Nat)) (h : st.settled = some x) :
    (extractStep expected cacheDir res st i).settled = some x := by
  cases hres : res i with
  | ok sz =>
      simp only [extractStep, hres]
      by_cases hfin : (st.completed + 1 == expected && !st.hasError) = true
      · rw [if_pos hfin]
        by_cases hv : allValid expected ((i, sz) :: st.files) = true
        · rw [if_pos hv]; simp [h, Option.orElse]
        · rw [if_neg hv]; simp [h, Option.orElse]
      · rw [if_neg hfin]; exact h
  | err m =>
      simp only [extractStep, hres]
      by_cases he : st.hasError = true
      · rw [if_pos he]; exact h
      · rw [if_neg he]; simp [h, Option.orElse]

/-- A settled extraction promise stays settled through all later events. -/
theorem extractFold_settled_mono (expected : Nat) (cacheDir : String)
    (res : Nat → TrackResult) :
    ∀ (l : List Nat) (st : ExtractState) (x : ExtractOutcome × List (Nat × Nat)),
      st.settled = some x →
      (l.foldl (extractStep expected cacheDir res) st).settled = some x := by
  intro l
  induction l with
  | nil => intro st x h; exact h
  | cons i t ih =>
      intro st x h
      rw [List.foldl_cons]
      exact ih _ _ (extractStep_settled_mono expected cacheDir res st i x h)

/-- The three state invariants are preserved by every event. -/
theorem extractStep_inv (expected : Nat) (cacheDir : String)
    (res : Nat → TrackResult) (st : ExtractState) (i : Nat)
    (h1 : FilesFromTracks res st) (h2 : RejectedInv res st)
    (h3 : ResolvedInv expected cacheDir res st) :
    FilesFromTracks res (extractStep expected cacheDir res st i) ∧
    RejectedInv res (extractStep expected cacheDir res st i) ∧
    ResolvedInv expected cacheDir res (extractStep expected cacheDir res st i) := by
  have hfiles : ∀ sz, res i = .ok sz →
      ∀ q ∈ (i, sz) :: st.files, res q.1 = .ok q.2 := by
    intro sz hres q hq
    rcases List.mem_cons.mp hq with hq | hq
    · subst hq; exact hres
    · exact h1 q hq
  cases hres : res i with
  | ok sz =>
      simp only [extractStep, hres]
      by_cases hfin : (st.completed + 1 == expected && !st.hasError) = true
      · rw [if_pos hfin]
        by_cases hv : allValid expected ((i, sz) :: st.files) = true
        · rw [if_pos hv]
          cases hset : st.settled with
          | some x =>
              refine ⟨hfiles sz hres, ?_, ?_⟩
              · intro m snap heq
                simp only [hset, Option.orElse] at heq
                exact h2 m snap (hset.trans heq)
              · intro out snap heq
                simp only [hset, Option.orElse] at heq
                exact h3 out snap (hset.trans heq)
          | none =>
              refine ⟨hfiles sz hres, ?_, ?_⟩
              · intro m snap heq
                simp only [hset, Option.orElse] at heq
                simp at heq
              · intro out snap heq
                simp only [hset, Option.orElse] at heq
                simp only [Option.some.injEq, Prod.mk.injEq] at heq
                obtain ⟨hout, hsnap⟩ := heq
                injection hout with hout2
                subst hsnap
                exact ⟨hout2.symm, hv, hfiles sz hres⟩
        · rw [if_neg hv]
          cases hset : st.settled with
          | some x =>
              refine ⟨fun q hq => absurd hq (List.not_mem_nil q), ?_, ?_⟩
              · intro m snap heq
                simp only [hset, Option.orElse] at heq
                exact h2 m snap (hset.trans heq)
              · intro out snap heq
                simp only [hset, Option.orElse] at heq
                exact h3 out snap (hset.trans heq)
          | none =>
              refine ⟨fun q hq => absurd hq (List.not_mem_nil q), ?_, ?_⟩
              · intro m snap heq
                simp only [hset, Option.orElse] at heq
                simp only [Option.some.injEq, Prod.mk.injEq] at heq
                obtain ⟨hm, hsnap⟩ := heq
                injection hm with hm2
                exact ⟨hsnap.symm, Or.inl hm2.symm⟩
              · intro out snap heq
                simp only [hset, Option.orElse] at heq
                simp at heq
      · rw [if_neg hfin]
        exact ⟨hfiles sz hres, h2, h3⟩
  | err m =>
      simp only [extractStep, hres]
      by_cases he : st.hasError = true
      · rw [if_pos he]
        exact ⟨h1, h2, h3⟩
      · rw [if_neg he]
        cases hset : st.settled with
        | some x =>
            refine ⟨fun q hq => absurd hq (List.not_mem_nil q), ?_, ?_⟩
            · intro m1 snap heq
              simp only [hset, Option.orElse] at heq
              exact h2 m1 snap (hset.trans heq)
            · intro out snap heq
              simp only [hset, Option.orElse] at heq
              exact h3 out snap (hset.trans heq)
        | none =>
            refine ⟨fun q hq => absurd hq (List.not_mem_nil q), ?_, ?_⟩
            · intro m1 snap heq
              simp only [hset, Option.orElse] at heq
              simp only [Option.some.injEq, Prod.mk.injEq] at heq
              obtain ⟨hm, hsnap⟩ := heq
              injection hm with hm2
              exact ⟨hsnap.symm, Or.inr ⟨i, m, hres, hm2.symm⟩⟩
            · intro out snap heq
              simp only [hset, Option.orElse] at heq
              simp at heq

/-- The three state invariants hold after folding any event list. -/
theorem extractFold_inv (expected : Nat) (cacheDir : String)
    (res : Nat → TrackResult) :
    ∀ (l : List Nat) (st : ExtractState),
      FilesFromTracks res st → RejectedInv res st →
      ResolvedInv expected cacheDir res st →
      FilesFromTracks res (l.foldl (extractStep expected cacheDir res) st) ∧
      RejectedInv res (l.foldl (extractStep expected cacheDir res) st) ∧
      ResolvedInv expected cacheDir res
        (l.foldl (extractStep expected cacheDir res) st) := by
  intro l
  induction l with
  | nil => intro st h1 h2 h3; exact ⟨h1, h2, h3⟩
  | cons i t ih =>
      intro st h1 h2 h3
      rw [List.foldl_cons]
      obtain ⟨g1, g2, g3⟩ := extractStep_inv expected cacheDir res st i h1 h2 h3
      exact ih _ g1 g2 g3

/-- When every remaining track succeeds with a positive size and the state is
live (no error, unsettled, counters consistent), the run resolves with the
full expected output list. -/
theorem extractFold_complete (expected : Nat) (cacheDir : String)
    (res : Nat → TrackResult) :
    ∀ (l : List Nat) (st : ExtractState),
      st.hasError = false → st.settled = none →
      st.completed + l.length = expected → l ≠ [] →
      (∀ j, j ∈ l → ∃ s, res j = .ok s ∧ 0 < s) →
      (∀ j, j < expected →
        (∃ s, lookupFile st.files j = some s ∧ 0 < s) ∨ j ∈ l) →
      ∃ snap, (l.foldl (extractStep expected cacheDir res) st).settled =
        some (.resolved ((List.range expected).map (audioTrackPath cacheDir)),
          snap) := by
  intro l
  induction l with
  | nil => intro st _ _ _ hne _ _; exact absurd rfl hne
  | cons i t ih =>
      intro st hErr hSet hCnt _ hok hcov
      obtain ⟨si, hsi, hsip⟩ := hok i (List.mem_cons_self i t)
      rw [List.foldl_cons]
      cases t with
      | nil =>
          have hc : st.completed + 1 = expected := by
            simpa using hCnt
          have hfin : (st.completed + 1 == expected && !st.hasError) = true := by
            simp [hErr, hc]
          have hvalid : allValid expected ((i, si) :: st.files) = true := by
            unfold allValid
            rw [List.all_eq_true]
            intro j hj
            have hjlt : j < expected := List.mem_range.mp hj
            rcases hcov j hjlt with ⟨s, hlk, hsp⟩ | hjin
            · rw [lookupFile_cons]
              by_cases hij : (i == j) = true
              · simp [hij, hsip]
              · have hijf : (i == j) = false := by
                  revert hij; cases (i == j) <;> simp
                simp [hijf, hlk, hsp]
            · have hji : j = i := by simpa using hjin
              subst hji
              rw [lookupFile_cons]
              simp [hsip]
          have hres : (extractStep expected cacheDir res st i).settled =
              some (.resolved ((List.range expected).map (audioTrackPath cacheDir)),
                (i, si) :: st.files) := by
            simp only [extractStep, hsi]
            rw [if_pos hfin, if_pos hvalid]
            simp [hSet, Option.orElse]
          exact ⟨(i, si) :: st.files, hres⟩
      | cons j t2 =>
          have hne2 : st.completed + 1 ≠ expected := by
            simp only [List.length_cons] at hCnt
            omega
          have hfin : ¬((st.completed + 1 == expected && !st.hasError) = true) := by
            simp [hne2]
          have hstep : extractStep expected cacheDir res st i =
              { st with completed := st.completed + 1,
                        files := (i, si) :: st.files } := by
            simp only [extractStep, hsi]
            rw [if_neg hfin]
          have hcov2 : ∀ j0, j0 < expected →
              (∃ s, lookupFile ((i, si) :: st.files) j0 = some s ∧ 0 < s) ∨
                j0 ∈ j :: t2 := by
            intro j0 hj0lt
            rcases hcov j0 hj0lt with ⟨s, hlk, hsp⟩ | hmem
            · left
              rw [lookupFile_cons]
              by_cases hij : (i == j0) = true
              · exact ⟨si, by simp [hij], hsip⟩
              · have hijf : (i == j0) = false := by
                  revert hij; cases (i == j0) <;> simp
                exact ⟨s, by simp [hijf, hlk], hsp⟩
            · rcases List.mem_cons.mp hmem with heq | hmem2
              · subst heq
                left
                rw [lookupFile_cons]
                exact ⟨si, by simp, hsip⟩
              · right; exact hmem2
          rw [hstep]
          apply ih
          · exact hErr
          · exact hSet
          · show st.completed + 1 + (j :: t2).length = expected
            simp only [List.length_cons] at hCnt ⊢
            omega
          · simp
          · intro j0 hj0
            exact hok j0 (List.mem_cons_of_mem _ hj0)
          · exact hcov2

/-- A live run over a nonempty remaining event list always settles. -/
theorem extractFold_total (expected : Nat) (cacheDir : String)
    (res : Nat → TrackResult) :
    ∀ (l : List Nat) (st : ExtractState),
      st.hasError = false → st.settled = none →
      st.completed + l.length = expected → l ≠ [] →
      ((l.foldl (extractStep expected cacheDir res) st).settled).isSome := by
  intro l
  induction l with
  | nil => intro st _ _ _ hne; exact absurd rfl hne
  | cons i t ih =>
      intro st hErr hSet hCnt _
      rw [List.foldl_cons]
      cases hres : res i with
      | err m =>
          have hstep : (extractStep expected cacheDir res st i).settled =
              some (.rejected (trackFailMsg i m), []) := by
            simp only [extractStep, hres]
            rw [if_neg (by simp [hErr])]
            simp [hSet, Option.orElse]
          rw [extractFold_settled_mono expected cacheDir res t _ _ hstep]
          rfl
      | ok si =>
          cases t with
          | nil =>
              have hc : st.completed + 1 = expected := by simpa using hCnt
              have hfin : (st.completed + 1 == expected && !st.hasError) = true := by
                simp [hErr, hc]
              by_cases hv : allValid expected ((i, si) :: st.files) = true
              · have hstep : (extractStep expected cacheDir res st i).settled =
                    some (.resolved
                      ((List.range expected).map (audioTrackPath cacheDir)),
                      (i, si) :: st.files) := by
                  simp only [extractStep, hres]
                  rw [if_pos hfin, if_pos hv]
                  simp [hSet, Option.orElse]
                simp [hstep]
              · have hstep : (extractStep expected cacheDir res st i).settled =
                    some (.rejected invalidFilesMsg, []) := by
                  simp only [extractStep, hres]
                  rw [if_pos hfin, if_neg hv]
                  simp [hSet, Option.orElse]
                simp [hstep]
          | cons j t2 =>
              have hne2 : st.completed + 1 ≠ expected := by
                simp only [List.length_cons] at hCnt
                omega
              have hstep : extractStep expected cacheDir res st i =
                  { st with completed := st.completed + 1,
                            files := (i, si) :: st.files } := by
                simp only [extractStep, hres]
                rw [if_neg (by simp [hne2])]
              rw [hstep]
              apply ih
              · exact hErr
              · exact hSet
              · show st.completed + 1 + (j :: t2).length = expected
                simp only [List.length_cons] at hCnt ⊢
                omega
              · simp

/-- Claim C5 counterexample: a single track whose demux ends but whose output
file has zero bytes.  The run rejects with the generic invalid-files
message and an empty directory snapshot — the error does not name the
failing track index, refuting "on any invalid output detected after
completion ... the call fails with an error naming the failing track
index". -/
theorem c5_counterexample :
    (runExtract 1 "d" (fun _ => .ok 0) [0]).settled =
      some (.rejected invalidFilesMsg, []) ∧
    ¬ ∃ i m0, invalidFilesMsg = trackFailMsg i m0 := by
  refine ⟨by decide, ?_⟩
  rintro ⟨i, m0, h⟩
  have h2 := congrArg (fun s : String => s.data.take 18) h
  simp only [invalidFilesMsg, trackFailMsg, String.data_append] at h2
  rw [List.append_assoc, List.append_assoc] at h2
  rw [List.take_append_of_le_length (by decide)] at h2
  exact absurd h2 (by decide)

/-- Claim C5 amended: over any delivery order of the per-track terminal events
(one per launched track), extraction succeeds — resolving with the full
expected output list — exactly when every track ends with a non-empty
output; on failure the directory snapshot at settlement is empty, and the
rejection message names the failing track index when a track's demux
errored, while invalid outputs detected after completion reject with the
generic invalid-files message (which names no index). -/
theorem c5_extraction_all_or_nothing_amended
    (expected : Nat) (cacheDir : String) (res : Nat → TrackResult)
    (order : List Nat) (hperm : order.Perm (List.range expected))
    (hpos : 0 < expected) :
    ((∀ i, i < expected → ∃ s, res i = .ok s ∧ 0 < s) →
      ∃ snap, (runExtract expected cacheDir res order).settled =
        some (.resolved ((List.range expected).map (audioTrackPath cacheDir)),
          snap)) ∧
    (∀ out snap, (runExtract expected cacheDir res order).settled =
        some (.resolved out, snap) →
      out = (List.range expected).map (audioTrackPath cacheDir) ∧
      ∀ i, i < expected → ∃ s, res i = .ok s ∧ 0 < s) ∧
    (∀ m snap, (runExtract expected cacheDir res order).settled =
        some (.rejected m, snap) →
      snap = [] ∧
        (m = invalidFilesMsg ∨ ∃ i m0, res i = .err m0 ∧ m = trackFailMsg i m0)) ∧
    ((¬ ∀ i, i < expected → ∃ s, res i = .ok s ∧ 0 < s) →
      ∃ m, (runExtract expected cacheDir res order).settled =
        some (.rejected m, [])) := by
  have hlen : order.length = expected := by
    have := hperm.length_eq
    simpa using this
  have hne : order ≠ [] := by
    intro h0
    rw [h0] at hlen
    simp at hlen
    omega
  have hmem : ∀ j, j ∈ order ↔ j < expected := by
    intro j
    rw [hperm.mem_iff, List.mem_range]
  obtain ⟨inv1, inv2, inv3⟩ := extractFold_inv expected cacheDir res order
    initExtract (by intro q hq; cases hq) (by intro m snap h; cases h)
    (by intro out snap h; cases h)
  have hsound : ∀ out snap,
      (runExtract expected cacheDir res order).settled =
        some (.resolved out, snap) →
      out = (List.range expected).map (audioTrackPath cacheDir) ∧
      ∀ i, i < expected → ∃ s, res i = .ok s ∧ 0 < s := by
    intro out snap hset
    obtain ⟨hout, hvalid, hfrom⟩ := inv3 out snap hset
    refine ⟨hout, ?_⟩
    intro i hi
    have hall := List.all_eq_true.mp hvalid i (List.mem_range.mpr hi)
    cases hlk : lookupFile snap i with
    | none => rw [hlk] at hall; cases hall
    | some s =>
        rw [hlk] at hall
        have hsp : 0 < s := by simpa using hall
        have hq := lookupFile_mem snap i s hlk
        exact ⟨s, hfrom (i, s) hq, hsp⟩
  refine ⟨?_, hsound, ?_, ?_⟩
  · intro hall
    apply extractFold_complete expected cacheDir res order initExtract rfl rfl
      (by simp [initExtract, hlen]) hne
    · intro j hj
      exact hall j ((hmem j).mp hj)
    · intro j hj
      exact Or.inr ((hmem j).mpr hj)
  · intro m snap hset
    exact inv2 m snap hset
  · intro hbad
    have htot := extractFold_total expected cacheDir res order initExtract rfl rfl
      (by simp [initExtract, hlen]) hne
    have htot2 : (runExtract expected cacheDir res order).settled.isSome = true := htot
    cases hset : (runExtract expected cacheDir res order).settled with
    | none =>
        rw [hset] at htot2
        simp at htot2
    | some x =>
        obtain ⟨out, snap⟩ := x
        cases out with
        | resolved outs =>
            exact absurd (hsound outs snap hset).2 hbad
        | rejected m =>
            obtain ⟨hsnap, _⟩ := inv2 m snap hset
            subst hsnap
            exact ⟨m, rfl⟩

/-- Claim C5 amended witness: two tracks both ending with non-empty outputs
resolve with the full output list, over the delivery order 1, 0. -/
theorem c5_extraction_all_or_nothing_amended_witness :
    ([1, 0] : List Nat).Perm (List.range 2) ∧ 0 < 2 ∧
    ∃ snap, (runExtract 2 "d" (fun i => .ok (i + 1)) [1, 0]).settled =
      some (.resolved ((List.range 2).map (audioTrackPath "d")), snap) := by
  have hperm : ([1, 0] : List Nat).Perm (List.range 2) := by decide
  refine ⟨hperm, by norm_num, ?_⟩
  exact (c5_extraction_all_or_nothing_amended 2 "d" (fun i => .ok (i + 1))
    [1, 0] hperm (by norm_num)).1
    (by intro i _; exact ⟨i + 1, rfl, by omega⟩)

end VCM
